import Mathlib

/-!
Verification of the speaker-diarization core of the defscribe repository.

The canonical engine is the Web-Worker script embedded in
`src/unnamed/part_003` (the worker-isolated, MFCC-based variant that the
spec designates as canonical).  Its mutable module-level variables become
the fields of `WState`; its message handlers become pure state
transformers returning the new state together with the list of messages
posted via `self.postMessage`.  Numbers are modelled as exact rationals
(the usual idealisation of IEEE doubles for algorithmic claims); the one
place where `NaN` semantics matter (malformed-frame handling) uses the
explicit `JsNum` type below.

Feature extraction (the vendored Meyda library) is an external
collaborator: the `rms` and `mfcc` feature values it reports for a frame
are inputs of the model.  The only piece of Meyda behaviour that the
claims depend on is its `rms` extractor
(`t += pow(signal[r],2); ...; Math.sqrt(t/len)`), which is embedded below
as `sumSquares` in order to reason about `NaN` propagation.
-/

/-- A JavaScript floating-point sample: either `NaN` or an (idealised)
exact rational value.  Used for the raw audio samples handed to
`processFrame`, where `NaN` propagation decides whether a frame is
dropped. -/
inductive JsNum where
  | nan : JsNum
  | num (q : ℚ) : JsNum
deriving DecidableEq, Repr

/-- JavaScript addition on samples: `NaN` is absorbing. -/
def JsNum.add : JsNum → JsNum → JsNum
  | .num a, .num b => .num (a + b)
  | _, _ => .nan

/-- JavaScript multiplication on samples: `NaN` is absorbing
(`NaN * 0 = NaN` in IEEE arithmetic). -/
def JsNum.mul : JsNum → JsNum → JsNum
  | .num a, .num b => .num (a * b)
  | _, _ => .nan

/-- The sum-of-squares accumulation of Meyda's `rms` extractor
(`src/unnamed/part_003`, the embedded Meyda blob:
`p.rms = function(e){for(var t=0,r=0;...)t+=Math.pow(e.signal[r],2); ...}`).
The extractor returns `Math.sqrt(t/len)`; since `sqrt` maps `NaN` to `NaN`,
`0` to `0` and positive rationals to positive reals, the truthiness of the
reported `rms` is fully determined by this sum: `rms` is falsy exactly when
the sum is `NaN` or `0`.  (Meyda applies a Hanning window before `rms`;
windowing maps `NaN` samples to `NaN` and an all-zero frame to an all-zero
frame, so it does not change that determination.) -/
def sumSquares (l : List JsNum) : JsNum :=
  l.foldl (fun t x => t.add (x.mul x)) (.num 0)

/-- A finalized diarization segment, `src/unnamed/part_003` line 102:
`{ speakerId, startMs, endMs }`.  Speaker ids are modelled as the numeric
index `k` of the display string `'S' + k` (the spec's design notes treat
the string form as a display-layer concern). -/
structure Segment where
  speakerId : Nat
  startMs : ℚ
  endMs : ℚ
deriving DecidableEq, Repr

/-- A speaker centroid, `src/unnamed/part_003` lines 156/164:
`{ id, vector }`. -/
structure Centroid where
  id : Nat
  vector : List ℚ
deriving DecidableEq, Repr

/-- Messages the worker posts to the hook (`self.postMessage` calls in
`src/unnamed/part_003`): `'segments'`, `'activeSpeaker'`, `'ready'`,
`'pong'` and `'error'` (the error payload string is irrelevant to the
claims and omitted).  `segmentQueue` is flushed immediately after its sole
push site (`endCurrentSegment` pushes, then calls `flushQueue`), so the
queue is always empty at rest and segments are modelled as emitted
directly. -/
inductive WMsg where
  | segments (ss : List Segment)
  | activeSpeaker (id : Nat)
  | ready
  | pong
  | error
deriving DecidableEq, Repr

/-- The worker's mutable module-level session state,
`src/unnamed/part_003` lines 63-74. -/
structure WState where
  featureBuffer : List (List ℚ)
  centroids : List Centroid
  currentSpeakerId : Option Nat
  currentSegmentStartMs : ℚ
  lastSpeechTimestamp : ℚ
  silenceFrames : Nat
  noiseFloor : ℚ
deriving DecidableEq, Repr

/-- Initial worker state (`src/unnamed/part_003` lines 63-70):
`featureBuffer = []`, `centroids = []`, `currentSpeakerId = null`,
`currentSegmentStartMs = 0`, `lastSpeechTimestamp = 0`,
`silenceFrames = 0`, `noiseFloor = 0.003`. -/
def initWState : WState :=
  { featureBuffer := []
    centroids := []
    currentSpeakerId := none
    currentSegmentStartMs := 0
    lastSpeechTimestamp := 0
    silenceFrames := 0
    noiseFloor := 3 / 1000 }

/-- `src/unnamed/part_003` line 71: `SILENCE_THRESHOLD_FRAMES = 10`. -/
def SILENCE_THRESHOLD_FRAMES : Nat := 10

/-- `src/unnamed/part_003` line 72: `CHANGE_THRESHOLD = 0.4`. -/
def CHANGE_THRESHOLD : ℚ := 2 / 5

/-- `src/unnamed/part_003` line 64: `MAX_FEATURE_BUFFER_LENGTH = 12`. -/
def MAX_FEATURE_BUFFER_LENGTH : Nat := 12

/-- `src/unnamed/part_003` line 168: `alpha = 0.02`, the centroid EMA
coefficient. -/
def clusterAlpha : ℚ := 1 / 50

/-- Exact representation of the value of `cosineDistance`
(`src/unnamed/part_003` lines 76-89).  The source computes the float
`1 - dot / (Math.sqrt m1 * Math.sqrt m2)`; `dot`, `m1`, `m2` are sums of
products of rational inputs, so every distance has the exact form
`1 - dot / √den` with `dot : ℚ` and `den = m1 * m2 > 0`.  The degenerate
branches of the source return exactly `1`, represented as `⟨0, 1⟩`
(`1 - 0 / √1 = 1`).  Comparisons on these representations are decided
exactly by `rsLt`/`rsEq` below, which are proved to agree with the real
ordering of the represented values. -/
structure CosD where
  dot : ℚ
  den : ℚ
deriving DecidableEq, Repr

/-- Decides `a / √p < b / √q` for rationals with `p, q > 0`, by sign
analysis and cross-multiplied squaring. -/
def rsLt (a p b q : ℚ) : Bool :=
  if a < 0 then
    if 0 ≤ b then true else decide (b * b * p < a * a * q)
  else
    if b ≤ 0 then false else decide (a * a * q < b * b * p)

/-- Decides `a / √p = b / √q` for rationals with `p, q > 0`. -/
def rsEq (a p b q : ℚ) : Bool :=
  decide ((0 ≤ a) ↔ (0 ≤ b)) && decide (a * a * q = b * b * p)

/-- Value-level strict order on represented cosine distances:
`1 - x.dot/√x.den < 1 - y.dot/√y.den` iff `y.dot/√y.den < x.dot/√x.den`. -/
def dLt (x y : CosD) : Bool := rsLt y.dot y.den x.dot x.den

/-- Value-level equality on represented cosine distances (the `===` used
by `indexOf` compares float values). -/
def dEq (x y : CosD) : Bool := rsEq x.dot x.den y.dot y.den

/-- Decides `1 - x.dot/√x.den > c` for a rational threshold `c`, i.e.
`x.dot/√x.den < (1 - c) / √1`. -/
def dGtQ (x : CosD) (c : ℚ) : Bool := rsLt x.dot x.den (1 - c) 1

/-- `cosineDistance` (`src/unnamed/part_003` lines 76-89) on rational
vectors, returning the exact representation of its float result.  The
source's `!v1 || !v2` null-guard cannot fire in the model (lists are
always present); the length-mismatch and zero-magnitude branches return
exactly `1`. -/
def cosineDistance (v1 v2 : List ℚ) : CosD :=
  if v1.length ≠ v2.length then ⟨0, 1⟩
  else
    let dot := ((v1.zip v2).map fun p => p.1 * p.2).sum
    let m1 := (v1.map fun a => a * a).sum
    let m2 := (v2.map fun b => b * b).sum
    if m1 = 0 ∨ m2 = 0 then ⟨0, 1⟩
    else ⟨dot, m1 * m2⟩

/-- The per-coordinate EMA update of the matched centroid
(`src/unnamed/part_003` line 169):
`cvec[d] = cvec[d]*(1-alpha) + currentMean[d]*alpha` for `d < dims`.
All vectors in a session share the extractor's fixed MFCC dimension, so
the loop is the pointwise `zipWith`. -/
def emaUpdate (cvec mean : List ℚ) : List ℚ :=
  List.zipWith (fun a b => a * (1 - clusterAlpha) + b * clusterAlpha) cvec mean

/-- The clustering step of `processFrame` (`src/unnamed/part_003` lines
152-171): returns the detected speaker id and the updated centroid list.
`Math.min(...distances)` is the left fold keeping the value-smaller
element; `distances.indexOf(minDistance)` is the first index whose value
equals the minimum. -/
def distList (mean : List ℚ) (cs : List Centroid) : List CosD :=
  cs.map fun c => cosineDistance mean c.vector

/-- `Math.min(...distances)` (`src/unnamed/part_003` line 159): the fold
keeping the value-smaller element. -/
def minDist (mean : List ℚ) (c0 : Centroid) (rest : List Centroid) : CosD :=
  (distList mean (c0 :: rest)).foldl (fun acc d => if dLt d acc then d else acc)
    (cosineDistance mean c0.vector)

/-- `distances.indexOf(minDistance)` (`src/unnamed/part_003` line 160):
the first index whose value equals the minimum. -/
def closestIdx (mean : List ℚ) (c0 : Centroid) (rest : List Centroid) : Nat :=
  (distList mean (c0 :: rest)).findIdx fun d => dEq d (minDist mean c0 rest)

def clusterStep (expected : Int) (mean : List ℚ) (cs : List Centroid) :
    Nat × List Centroid :=
  match cs with
  | [] => (1, [⟨1, mean⟩])
  | c0 :: rest =>
    if dGtQ (minDist mean c0 rest) CHANGE_THRESHOLD
        && decide ((cs.length : Int) < expected) then
      (cs.length + 1, cs ++ [⟨cs.length + 1, mean⟩])
    else
      let c := (c0 :: rest).getD (closestIdx mean c0 rest) ⟨0, []⟩
      (c.id,
       cs.set (closestIdx mean c0 rest) { c with vector := emaUpdate c.vector mean })

/-- `endCurrentSegment` (`src/unnamed/part_003` lines 98-108): if a
segment is open, close it at the last speech timestamp (falling back to
the supplied timestamp when no speech was seen), emit it when its end is
strictly past its start, and clear the open-segment state. -/
def endCurrentSegmentW (timestamp : ℚ) (s : WState) : WState × List WMsg :=
  match s.currentSpeakerId with
  | none => (s, [])
  | some sid =>
    let endTime := if s.lastSpeechTimestamp > 0 then s.lastSpeechTimestamp
      else timestamp
    let out := if endTime > s.currentSegmentStartMs then
        [WMsg.segments [⟨sid, s.currentSegmentStartMs, endTime⟩]]
      else []
    ({ s with currentSpeakerId := none, lastSpeechTimestamp := 0 }, out)

/-- The noise-floor EMA of `src/unnamed/part_003` line 121:
`noiseFloor = noiseFloor * 0.995 + rms * 0.005`. -/
def noiseFloorNext (s : WState) (rms : ℚ) : ℚ :=
  s.noiseFloor * (995 / 1000) + rms * (5 / 1000)

/-- The VAD threshold of `src/unnamed/part_003` line 122:
`Math.max(noiseFloor * 2.5, 0.0045)`, computed from the just-updated
noise floor. -/
def vadThr (s : WState) (rms : ℚ) : ℚ :=
  max (noiseFloorNext s rms * (25 / 10)) (45 / 10000)

/-- The smoothing-window push of `src/unnamed/part_003` lines 137-140:
`shift()` the oldest entry once the window holds
`MAX_FEATURE_BUFFER_LENGTH` vectors, then `push(mfcc)`. -/
def bufferPush (fb : List (List ℚ)) (mfcc : List ℚ) : List (List ℚ) :=
  (if MAX_FEATURE_BUFFER_LENGTH ≤ fb.length then fb.tail else fb) ++ [mfcc]

/-- The window mean of `src/unnamed/part_003` lines 144-150:
`currentMean[d] = (Σ_vec vec[d]) / featureBuffer.length` for
`d < featureBuffer[0].length`. -/
def windowMean (fb : List (List ℚ)) : List ℚ :=
  (List.range (fb.headD []).length).map fun d =>
    ((fb.map fun v => v.getD d 0).sum) / (fb.length : ℚ)

/-- The body of `processFrame` after the feature guard
(`src/unnamed/part_003` lines 119-179), given the `rms` and `mfcc`
feature values reported for the frame.  In order: noise-floor EMA, VAD
threshold, silence counting with hysteresis close, speech bookkeeping,
smoothing-window fill, window mean, clustering, and the speaker-change
segment transition. -/
def processFeatures (expected : Int) (rms : ℚ) (mfcc : List ℚ) (t0ms : ℚ)
    (s : WState) : WState × List WMsg :=
  let nf := noiseFloorNext s rms
  if rms < vadThr s rms then
    let s1 := { s with noiseFloor := nf, silenceFrames := s.silenceFrames + 1 }
    if s1.silenceFrames > SILENCE_THRESHOLD_FRAMES then
      endCurrentSegmentW t0ms s1
    else (s1, [])
  else
    let s1 := { s with noiseFloor := nf, silenceFrames := 0,
                       lastSpeechTimestamp := t0ms }
    if mfcc = [] then (s1, [])
    else
      let fb := bufferPush s1.featureBuffer mfcc
      let s2 := { s1 with featureBuffer := fb }
      if fb.length < MAX_FEATURE_BUFFER_LENGTH / 2 then (s2, [])
      else
        let r := clusterStep expected (windowMean fb) s2.centroids
        let s3 := { s2 with centroids := r.2 }
        if s3.currentSpeakerId = some r.1 then (s3, [])
        else
          let e := endCurrentSegmentW t0ms s3
          ({ e.1 with currentSpeakerId := some r.1,
                      currentSegmentStartMs := t0ms },
            e.2 ++ [WMsg.activeSpeaker r.1])

/-- The `'stop'` branch of the worker's `onmessage` handler
(`src/unnamed/part_003` lines 197-205): close any open segment at the
supplied timestamp (defaulting to `lastSpeechTimestamp || 0`), then reset
`centroids`, `featureBuffer`, `currentSpeakerId`, `lastSpeechTimestamp`
and `silenceFrames`.  `noiseFloor` and `currentSegmentStartMs` are not
touched. -/
def stopHandler (t0 : Option ℚ) (s : WState) : WState × List WMsg :=
  let stopTs := t0.getD s.lastSpeechTimestamp
  let e := endCurrentSegmentW stopTs s
  ({ e.1 with centroids := [], featureBuffer := [], currentSpeakerId := none,
              lastSpeechTimestamp := 0, silenceFrames := 0 }, e.2)

/-- JavaScript's `x || d` on numeric config fields: the default replaces
`0` (and missing/`NaN` values); every other number, including negatives,
passes through. -/
def jsOrDefault (x d : Int) : Int := if x = 0 then d else x

/-- Worker configuration, `src/unnamed/part_003` line 74. -/
structure WCfg where
  expectedSpeakers : Int
  sampleRate : Int
deriving DecidableEq, Repr

/-- The `'config'` branch of the worker's `onmessage` handler
(`src/unnamed/part_003` lines 184-194): build the config with `|| 2` and
`|| 16000` defaults and reply `'ready'`.  No validation is performed and
no error is ever emitted from this branch. -/
def configHandler (es sr : Int) : WCfg × List WMsg :=
  ({ expectedSpeakers := jsOrDefault es 2, sampleRate := jsOrDefault sr 16000 },
    [WMsg.ready])

/-- Session events at the feature level (the `'audio'` and `'stop'`
worker messages, with the per-frame feature values as inputs). -/
inductive WEvent where
  | audio (rms : ℚ) (mfcc : List ℚ) (t0ms : ℚ)
  | stop (t0ms : Option ℚ)
deriving DecidableEq, Repr

/-- One worker step on a session event. -/
def stepW (expected : Int) (s : WState) : WEvent → WState × List WMsg
  | .audio rms mfcc t0 => processFeatures expected rms mfcc t0 s
  | .stop t0 => stopHandler t0 s

/-- Run the worker over a list of session events, accumulating the posted
messages in order. -/
def runW (expected : Int) (s : WState) : List WEvent → WState × List WMsg
  | [] => (s, [])
  | e :: es =>
    let r1 := stepW expected s e
    let r2 := runW expected r1.1 es
    (r2.1, r1.2 ++ r2.2)

/-- The finalized segments contained in a list of posted messages, in
emission order. -/
def emittedSegments (out : List WMsg) : List Segment :=
  out.flatMap fun m => match m with
    | .segments ss => ss
    | _ => []

/-- The speaker ids contained in a list of posted messages (both
`'segments'` and `'activeSpeaker'` payloads). -/
def emittedIds (out : List WMsg) : List Nat :=
  out.flatMap fun m => match m with
    | .segments ss => ss.map (·.speakerId)
    | .activeSpeaker i => [i]
    | _ => []

/-- A raw audio message (`{type: 'audio', payload: {frame, t0ms}}`)
together with the feature values the embedded Meyda analyzer reports for
the frame.  The features are inputs of the model (their float values are
irrational in general); the guards of `processFrame` that depend on the
raw samples are embedded exactly. -/
structure RawFrame where
  samples : List JsNum
  rms : ℚ
  mfcc : List ℚ
  t0ms : ℚ
deriving DecidableEq, Repr

/-- `processFrame` (`src/unnamed/part_003` lines 110-179) including its
raw-frame guards: line 111 drops an empty frame
(`!frame || !frame.length`), and line 117 (`!features.rms`) drops a frame
whose reported `rms` is falsy — which, by the `sumSquares`/`sqrt`
analysis above, happens exactly when the frame contains a `NaN` sample or
is all-zero.  A surviving frame is processed by `processFeatures` with
the reported feature values.  (The `!meyda` guard is outside the model:
sessions are configured before audio arrives.) -/
def processFrameRaw (expected : Int) (f : RawFrame) (s : WState) :
    WState × List WMsg :=
  if f.samples = [] then (s, [])
  else
    match sumSquares f.samples with
    | .nan => (s, [])
    | .num q =>
      if q = 0 then (s, [])
      else processFeatures expected f.rms f.mfcc f.t0ms s

/-- Run the worker over raw audio frames. -/
def runRaw (expected : Int) (s : WState) : List RawFrame → WState × List WMsg
  | [] => (s, [])
  | f :: fs =>
    let r1 := processFrameRaw expected f s
    let r2 := runRaw expected r1.1 fs
    (r2.1, r1.2 ++ r2.2)

/-- Modelled from the spec: the constant `MIN_SEGMENT_DURATION_MS` of
`AUDIO_CONSTANTS` is imported by `src/hooks/useDiarization.ts` from
`src/constants/audio.ts`, a file of this repository that is not under
`src/`.  Its value is taken as 300 ms, the value of the identical inline
constant `MIN_SEGMENT_DURATION_MS = 300` in the sibling implementation
`src/unnamed/part_004` line 48. -/
def MIN_SEGMENT_DURATION_MS : ℚ := 300

/-- The segment-lifecycle state of the hook variant
(`src/hooks/useDiarization.ts`): `currentSegmentRef`, the `segments`
state, and the `activeSpeaker` state. -/
structure HookState where
  currentSegment : Option Segment
  segments : List Segment
  activeSpeaker : Option Nat
deriving DecidableEq, Repr

/-- `endCurrentSegment` of the hook variant
(`src/hooks/useDiarization.ts` lines 172-184): stamp the open segment's
`endMs`, append it to `segments` only when
`endMs - startMs >= MIN_SEGMENT_DURATION_MS`, then clear the open segment
and the active speaker. -/
def endCurrentSegmentHook (endTime : ℚ) (s : HookState) : HookState :=
  match s.currentSegment with
  | none => s
  | some seg =>
    let seg' := { seg with endMs := endTime }
    { currentSegment := none
      segments := if MIN_SEGMENT_DURATION_MS ≤ seg'.endMs - seg'.startMs then
          s.segments ++ [seg']
        else s.segments
      activeSpeaker := none }

/-- `src/unnamed/part_003` line 235: `MAX_RESTARTS = 3`. -/
def MAX_RESTARTS : Nat := 3

/-- State of the hook's heartbeat supervision
(`src/unnamed/part_003` lines 332-363): the `gotPong` closure variable,
`restartAttemptsRef`, whether the 5-second interval is currently
installed, the engine (worker) state — replaced by a fresh instance on
every restart — and observation counters for the restarts performed and
the terminal `console.error` log.  The hook exposes no error value to its
caller (it returns only `activeSpeaker`), so there is no `EngineError`
channel to model. -/
structure HBState where
  gotPong : Bool
  restartAttempts : Nat
  heartbeatActive : Bool
  engine : WState
  restarts : Nat
  consoleFailures : Nat
deriving DecidableEq, Repr

/-- Heartbeat events: a 5-second interval tick, or a `'pong'` message
from the worker. -/
inductive HBEvent where
  | tick
  | pong
deriving DecidableEq, Repr

/-- One heartbeat transition.  Tick (`src/unnamed/part_003` lines
333-348): with `gotPong` still unset the interval is cleared and, while
`restartAttemptsRef.current < MAX_RESTARTS`, the counter is incremented
and `start()` is invoked — which discards the worker (fresh engine
state), installs a fresh interval and a fresh `gotPong = true` closure;
once the counter has reached `MAX_RESTARTS` the handler only logs
`console.error` and leaves the interval cleared.  Otherwise the tick
clears `gotPong` and sends `'ping'`.  Pong (`src/unnamed/part_003` lines
352-354): sets `gotPong` and resets the restart counter to zero. -/
def hbStep (s : HBState) : HBEvent → HBState
  | .pong => { s with gotPong := true, restartAttempts := 0 }
  | .tick =>
    if s.heartbeatActive = false then s
    else if s.gotPong = false then
      if s.restartAttempts < MAX_RESTARTS then
        { s with restartAttempts := s.restartAttempts + 1
                 restarts := s.restarts + 1
                 heartbeatActive := true
                 gotPong := true
                 engine := initWState }
      else
        { s with heartbeatActive := false
                 consoleFailures := s.consoleFailures + 1 }
    else
      { s with gotPong := false }

/-- Heartbeat state at session start (`src/unnamed/part_003` lines 332,
367): `restartAttemptsRef.current = 0`, `let gotPong = true`, interval
installed, fresh worker. -/
def hbInit : HBState :=
  { gotPong := true
    restartAttempts := 0
    heartbeatActive := true
    engine := initWState
    restarts := 0
    consoleFailures := 0 }

/-- Run the heartbeat over a list of events. -/
def hbRun (s : HBState) (evs : List HBEvent) : HBState :=
  evs.foldl hbStep s

/-! ### Soundness of the exact distance comparators

`dVal` is the real number represented by a `CosD`; the Boolean
comparators `rsLt`/`rsEq` are proved to decide the real order exactly
(for positive radicands, which `cosineDistance` always produces). -/

/-- The real value represented by a `CosD`: `1 - dot / √den`. -/
noncomputable def dVal (x : CosD) : ℝ := 1 - (x.dot : ℝ) / Real.sqrt (x.den : ℝ)

lemma div_sqrt_lt_div_sqrt_iff (x y p q : ℝ) (hx : 0 ≤ x) (hy : 0 ≤ y)
    (hp : 0 < p) (hq : 0 < q) :
    x / Real.sqrt p < y / Real.sqrt q ↔ x * x * q < y * y * p := by
  have sp := Real.sqrt_pos.2 hp
  have sq := Real.sqrt_pos.2 hq
  have e1 : x * Real.sqrt q * (x * Real.sqrt q) = x * x * q := by
    have h := Real.mul_self_sqrt hq.le
    nlinarith [h]
  have e2 : y * Real.sqrt p * (y * Real.sqrt p) = y * y * p := by
    have h := Real.mul_self_sqrt hp.le
    nlinarith [h]
  rw [div_lt_div_iff₀ sp sq,
    mul_self_lt_mul_self_iff (mul_nonneg hx sq.le) (mul_nonneg hy sp.le), e1, e2]

lemma div_sqrt_eq_div_sqrt_iff (x y p q : ℝ) (hx : 0 ≤ x) (hy : 0 ≤ y)
    (hp : 0 < p) (hq : 0 < q) :
    x / Real.sqrt p = y / Real.sqrt q ↔ x * x * q = y * y * p := by
  have sp := Real.sqrt_pos.2 hp
  have sq := Real.sqrt_pos.2 hq
  have e1 : x * Real.sqrt q * (x * Real.sqrt q) = x * x * q := by
    have h := Real.mul_self_sqrt hq.le
    nlinarith [h]
  have e2 : y * Real.sqrt p * (y * Real.sqrt p) = y * y * p := by
    have h := Real.mul_self_sqrt hp.le
    nlinarith [h]
  rw [div_eq_div_iff sp.ne' sq.ne',
    ← mul_self_inj (mul_nonneg hx sq.le) (mul_nonneg hy sp.le), e1, e2]

lemma rsLt_iff (a p b q : ℚ) (hp : 0 < p) (hq : 0 < q) :
    rsLt a p b q = true ↔
      (a : ℝ) / Real.sqrt (p : ℝ) < (b : ℝ) / Real.sqrt (q : ℝ) := by
  have hp' : (0 : ℝ) < (p : ℝ) := by exact_mod_cast hp
  have hq' : (0 : ℝ) < (q : ℝ) := by exact_mod_cast hq
  have sp := Real.sqrt_pos.2 hp'
  have sq := Real.sqrt_pos.2 hq'
  unfold rsLt
  by_cases ha : a < 0
  · have ha' : (a : ℝ) < 0 := by exact_mod_cast ha
    by_cases hb : (0 : ℚ) ≤ b
    · have hb' : (0 : ℝ) ≤ (b : ℝ) := by exact_mod_cast hb
      simp only [if_pos ha, if_pos hb, true_iff]
      exact lt_of_lt_of_le (div_neg_of_neg_of_pos ha' sp) (div_nonneg hb' sq.le)
    · have hb0 : b < 0 := lt_of_not_le hb
      have hb' : (b : ℝ) < 0 := by exact_mod_cast hb0
      simp only [if_pos ha, if_neg hb, decide_eq_true_eq]
      have key : (a : ℝ) / Real.sqrt (p : ℝ) < (b : ℝ) / Real.sqrt (q : ℝ) ↔
          (-(b : ℝ)) / Real.sqrt (q : ℝ) < (-(a : ℝ)) / Real.sqrt (p : ℝ) := by
        rw [neg_div, neg_div, neg_lt_neg_iff]
      rw [key, div_sqrt_lt_div_sqrt_iff _ _ _ _ (by linarith) (by linarith) hq' hp',
        neg_mul_neg, neg_mul_neg]
      constructor
      · intro h; exact_mod_cast h
      · intro h; exact_mod_cast h
  · have ha' : (0 : ℝ) ≤ (a : ℝ) := by exact_mod_cast not_lt.mp ha
    by_cases hb : b ≤ 0
    · have hb' : (b : ℝ) ≤ 0 := by exact_mod_cast hb
      simp only [if_neg ha, if_pos hb, Bool.false_eq_true, false_iff, not_lt]
      exact le_trans (div_nonpos_of_nonpos_of_nonneg hb' sq.le) (div_nonneg ha' sp.le)
    · have hb0 : (0 : ℚ) < b := lt_of_not_le hb
      have hb' : (0 : ℝ) ≤ (b : ℝ) := by exact_mod_cast hb0.le
      simp only [if_neg ha, if_neg hb, decide_eq_true_eq]
      rw [div_sqrt_lt_div_sqrt_iff _ _ _ _ ha' hb' hp' hq']
      constructor
      · intro h; exact_mod_cast h
      · intro h; exact_mod_cast h

lemma div_sqrt_nonneg_iff (x p : ℝ) (hp : 0 < p) :
    0 ≤ x / Real.sqrt p ↔ 0 ≤ x := by
  rw [le_div_iff₀ (Real.sqrt_pos.2 hp), zero_mul]

lemma rsEq_iff (a p b q : ℚ) (hp : 0 < p) (hq : 0 < q) :
    rsEq a p b q = true ↔
      (a : ℝ) / Real.sqrt (p : ℝ) = (b : ℝ) / Real.sqrt (q : ℝ) := by
  have hp' : (0 : ℝ) < (p : ℝ) := by exact_mod_cast hp
  have hq' : (0 : ℝ) < (q : ℝ) := by exact_mod_cast hq
  unfold rsEq
  rw [Bool.and_eq_true, decide_eq_true_eq, decide_eq_true_eq]
  constructor
  · rintro ⟨hsign, hsq⟩
    by_cases ha : 0 ≤ a
    · have hb := hsign.mp ha
      rw [div_sqrt_eq_div_sqrt_iff _ _ _ _ (by exact_mod_cast ha)
        (by exact_mod_cast hb) hp' hq']
      exact_mod_cast hsq
    · have hb : ¬ 0 ≤ b := fun h => ha (hsign.mpr h)
      have ha' : (0 : ℝ) ≤ -(a : ℝ) := by
        have : a ≤ 0 := (lt_of_not_le ha).le
        have : (a : ℝ) ≤ 0 := by exact_mod_cast this
        linarith
      have hb' : (0 : ℝ) ≤ -(b : ℝ) := by
        have : b ≤ 0 := (lt_of_not_le hb).le
        have : (b : ℝ) ≤ 0 := by exact_mod_cast this
        linarith
      have key : (a : ℝ) / Real.sqrt (p : ℝ) = (b : ℝ) / Real.sqrt (q : ℝ) ↔
          (-(a : ℝ)) / Real.sqrt (p : ℝ) = (-(b : ℝ)) / Real.sqrt (q : ℝ) := by
        rw [neg_div, neg_div, neg_inj]
      rw [key, div_sqrt_eq_div_sqrt_iff _ _ _ _ ha' hb' hp' hq',
        neg_mul_neg, neg_mul_neg]
      exact_mod_cast hsq
  · intro h
    have sgn : 0 ≤ a ↔ 0 ≤ b := by
      have h1 : (0 ≤ (a : ℝ) / Real.sqrt (p : ℝ)) ↔ 0 ≤ (a : ℝ) :=
        div_sqrt_nonneg_iff _ _ hp'
      have h2 : (0 ≤ (b : ℝ) / Real.sqrt (q : ℝ)) ↔ 0 ≤ (b : ℝ) :=
        div_sqrt_nonneg_iff _ _ hq'
      rw [h] at h1
      constructor
      · intro hha
        have : (0 : ℝ) ≤ (b : ℝ) := h2.mp (h1.mpr (by exact_mod_cast hha))
        exact_mod_cast this
      · intro hhb
        have : (0 : ℝ) ≤ (a : ℝ) := h1.mp (h2.mpr (by exact_mod_cast hhb))
        exact_mod_cast this
    refine ⟨sgn, ?_⟩
    have h3 := congrArg (fun z : ℝ => z * z) h
    simp only at h3
    have e1 : (a : ℝ) / Real.sqrt (p : ℝ) * ((a : ℝ) / Real.sqrt (p : ℝ))
        = (a : ℝ) * (a : ℝ) / (p : ℝ) := by
      rw [div_mul_div_comm, Real.mul_self_sqrt hp'.le]
    have e2 : (b : ℝ) / Real.sqrt (q : ℝ) * ((b : ℝ) / Real.sqrt (q : ℝ))
        = (b : ℝ) * (b : ℝ) / (q : ℝ) := by
      rw [div_mul_div_comm, Real.mul_self_sqrt hq'.le]
    rw [e1, e2, div_eq_div_iff hp'.ne' hq'.ne'] at h3
    exact_mod_cast h3

lemma dLt_iff (x y : CosD) (hx : 0 < x.den) (hy : 0 < y.den) :
    dLt x y = true ↔ dVal x < dVal y := by
  unfold dLt dVal
  rw [rsLt_iff _ _ _ _ hy hx]
  constructor <;> intro h <;> linarith

lemma dEq_iff (x y : CosD) (hx : 0 < x.den) (hy : 0 < y.den) :
    dEq x y = true ↔ dVal x = dVal y := by
  unfold dEq dVal
  rw [rsEq_iff _ _ _ _ hx hy]
  constructor <;> intro h <;> linarith

lemma dGtQ_iff (x : CosD) (c : ℚ) (hx : 0 < x.den) :
    dGtQ x c = true ↔ (c : ℝ) < dVal x := by
  unfold dGtQ dVal
  rw [rsLt_iff _ _ _ _ hx one_pos]
  rw [Rat.cast_one, Real.sqrt_one, div_one]
  push_cast
  constructor <;> intro h <;> linarith

lemma dEq_refl (x : CosD) : dEq x x = true := by
  simp [dEq, rsEq]

lemma cosineDistance_den_pos (v1 v2 : List ℚ) : 0 < (cosineDistance v1 v2).den := by
  unfold cosineDistance
  by_cases h : v1.length ≠ v2.length
  · simp [h]
  · by_cases h0 : (v1.map fun a => a * a).sum = 0 ∨ (v2.map fun b => b * b).sum = 0
    · simp [h, h0]
    · have hm1 : 0 ≤ (v1.map fun a => a * a).sum := by
        refine List.sum_nonneg ?_
        intro x hx
        obtain ⟨a, _, rfl⟩ := List.mem_map.mp hx
        exact mul_self_nonneg a
      have hm2 : 0 ≤ (v2.map fun b => b * b).sum := by
        refine List.sum_nonneg ?_
        intro x hx
        obtain ⟨b, _, rfl⟩ := List.mem_map.mp hx
        exact mul_self_nonneg b
      have hpos : 0 < (v1.map fun a => a * a).sum * (v2.map fun b => b * b).sum :=
        mul_pos
          (lt_of_le_of_ne hm1 (Ne.symm fun hh => h0 (Or.inl hh)))
          (lt_of_le_of_ne hm2 (Ne.symm fun hh => h0 (Or.inr hh)))
      simpa [h, h0] using hpos

/-! ### The fold computing `Math.min(...distances)` and `indexOf` -/

lemma foldMin_mem (ds : List CosD) (acc : CosD) :
    ds.foldl (fun a d => if dLt d a then d else a) acc ∈ acc :: ds := by
  induction ds generalizing acc with
  | nil => simp
  | cons d t ih =>
    simp only [List.foldl_cons]
    by_cases hc : dLt d acc = true
    · rw [if_pos hc]
      rcases List.mem_cons.mp (ih d) with h1 | h1
      · simp [h1]
      · simp [h1]
    · rw [if_neg hc]
      rcases List.mem_cons.mp (ih acc) with h1 | h1
      · simp [h1]
      · simp [h1]

lemma foldMin_le (ds : List CosD) (acc : CosD) (hacc : 0 < acc.den)
    (hds : ∀ d ∈ ds, 0 < d.den) :
    dVal (ds.foldl (fun a d => if dLt d a then d else a) acc) ≤ dVal acc ∧
    ∀ d ∈ ds, dVal (ds.foldl (fun a d => if dLt d a then d else a) acc) ≤ dVal d := by
  induction ds generalizing acc with
  | nil => simp
  | cons d t ih =>
    have hd : 0 < d.den := hds d (List.mem_cons_self d t)
    have ht : ∀ x ∈ t, 0 < x.den := fun x hx => hds x (List.mem_cons.mpr (Or.inr hx))
    simp only [List.foldl_cons]
    by_cases hc : dLt d acc = true
    · have hlt : dVal d < dVal acc := (dLt_iff d acc hd hacc).mp hc
      rw [if_pos hc]
      obtain ⟨h1, h2⟩ := ih d hd ht
      refine ⟨h1.trans hlt.le, ?_⟩
      intro x hx
      rcases List.mem_cons.mp hx with rfl | hx
      · exact h1
      · exact h2 x hx
    · have hge : dVal acc ≤ dVal d := by
        rcases lt_or_le (dVal d) (dVal acc) with hh | hh
        · exact absurd ((dLt_iff d acc hd hacc).mpr hh) hc
        · exact hh
      rw [if_neg hc]
      obtain ⟨h1, h2⟩ := ih acc hacc ht
      refine ⟨h1, ?_⟩
      intro x hx
      rcases List.mem_cons.mp hx with rfl | hx
      · exact h1.trans hge
      · exact h2 x hx

lemma clusterMin_spec (mean : List ℚ) (c0 : Centroid) (rest : List Centroid) :
    ∀ ds minD j,
      ds = (c0 :: rest).map (fun c => cosineDistance mean c.vector) →
      minD = ds.foldl (fun a d => if dLt d a then d else a)
        (cosineDistance mean c0.vector) →
      j = ds.findIdx (fun d => dEq d minD) →
      minD ∈ ds ∧ 0 < minD.den ∧ j < ds.length ∧
        dVal (ds.getD j ⟨0, 1⟩) = dVal minD ∧
        (∀ d ∈ ds, dVal minD ≤ dVal d) ∧
        (∀ i, i < j → dVal minD < dVal (ds.getD i ⟨0, 1⟩)) := by
  intro ds minD j hds hmin hj
  have hdens : ∀ d ∈ ds, 0 < d.den := by
    intro d hd
    rw [hds] at hd
    obtain ⟨c, _, rfl⟩ := List.mem_map.mp hd
    exact cosineDistance_den_pos mean c.vector
  have hacc : cosineDistance mean c0.vector ∈ ds := by
    rw [hds]
    exact List.mem_map.mpr ⟨c0, List.mem_cons_self c0 rest, rfl⟩
  have haccden : 0 < (cosineDistance mean c0.vector).den :=
    cosineDistance_den_pos mean c0.vector
  have hminmem : minD ∈ ds := by
    rcases List.mem_cons.mp (hmin ▸ foldMin_mem ds (cosineDistance mean c0.vector))
      with h | h
    · exact h ▸ hacc
    · exact h
  have hminden : 0 < minD.den := hdens minD hminmem
  have hlb : ∀ d ∈ ds, dVal minD ≤ dVal d := by
    intro d hd
    exact hmin ▸ (foldMin_le ds (cosineDistance mean c0.vector) haccden hdens).2 d hd
  have hjlt : j < ds.length := by
    rw [hj]
    exact List.findIdx_lt_length_of_exists ⟨minD, hminmem, dEq_refl minD⟩
  have hgetj : dVal (ds.getD j ⟨0, 1⟩) = dVal minD := by
    rw [List.getD_eq_getElem ds ⟨0, 1⟩ hjlt]
    have hp : dEq ds[j] minD = true := by
      subst hj
      exact List.findIdx_getElem (w := hjlt)
    exact (dEq_iff _ _ (hdens _ (List.getElem_mem hjlt)) hminden).mp hp
  refine ⟨hminmem, hminden, hjlt, hgetj, hlb, ?_⟩
  intro i hij
  have hilt : i < ds.length := hij.trans hjlt
  rw [List.getD_eq_getElem ds ⟨0, 1⟩ hilt]
  have hne : dEq ds[i] minD = false := by
    subst hj
    exact List.not_of_lt_findIdx hij
  have hne' : dVal ds[i] ≠ dVal minD := by
    intro hcontra
    rw [(dEq_iff _ _ (hdens _ (List.getElem_mem hilt)) hminden).mpr hcontra] at hne
    exact Bool.noConfusion hne
  exact lt_of_le_of_ne (hlb _ (List.getElem_mem hilt)) (Ne.symm hne')

/-! ### Field-level facts about `endCurrentSegment` and `processFrame` -/

lemma endW_noiseFloor (ts : ℚ) (s : WState) :
    (endCurrentSegmentW ts s).1.noiseFloor = s.noiseFloor := by
  cases h : s.currentSpeakerId <;> simp [endCurrentSegmentW, h]

lemma endW_silenceFrames (ts : ℚ) (s : WState) :
    (endCurrentSegmentW ts s).1.silenceFrames = s.silenceFrames := by
  cases h : s.currentSpeakerId <;> simp [endCurrentSegmentW, h]

lemma endW_featureBuffer (ts : ℚ) (s : WState) :
    (endCurrentSegmentW ts s).1.featureBuffer = s.featureBuffer := by
  cases h : s.currentSpeakerId <;> simp [endCurrentSegmentW, h]

lemma endW_centroids (ts : ℚ) (s : WState) :
    (endCurrentSegmentW ts s).1.centroids = s.centroids := by
  cases h : s.currentSpeakerId <;> simp [endCurrentSegmentW, h]

lemma endW_startMs (ts : ℚ) (s : WState) :
    (endCurrentSegmentW ts s).1.currentSegmentStartMs = s.currentSegmentStartMs := by
  cases h : s.currentSpeakerId <;> simp [endCurrentSegmentW, h]

lemma endW_speaker (ts : ℚ) (s : WState) (h : s.currentSpeakerId = none) :
    (endCurrentSegmentW ts s).1.currentSpeakerId = none := by
  simp [endCurrentSegmentW, h]

lemma endW_speaker' (ts : ℚ) (s : WState) :
    (endCurrentSegmentW ts s).1.currentSpeakerId = none := by
  cases h : s.currentSpeakerId <;> simp [endCurrentSegmentW, h]

lemma processFeatures_silence (expected : Int) (rms : ℚ) (mfcc : List ℚ)
    (t0 : ℚ) (s : WState) (h : rms < vadThr s rms) :
    processFeatures expected rms mfcc t0 s =
      if s.silenceFrames + 1 > SILENCE_THRESHOLD_FRAMES then
        endCurrentSegmentW t0
          { s with noiseFloor := noiseFloorNext s rms,
                   silenceFrames := s.silenceFrames + 1 }
      else
        ({ s with noiseFloor := noiseFloorNext s rms,
                  silenceFrames := s.silenceFrames + 1 }, []) := by
  simp only [processFeatures, if_pos h]

lemma processFeatures_speech_fields (expected : Int) (rms : ℚ) (mfcc : List ℚ)
    (t0 : ℚ) (s : WState) (h : ¬ rms < vadThr s rms) :
    (processFeatures expected rms mfcc t0 s).1.silenceFrames = 0 ∧
    (processFeatures expected rms mfcc t0 s).1.noiseFloor = noiseFloorNext s rms := by
  simp only [processFeatures, if_neg h]
  split_ifs with h1 h2 h3 <;>
    simp [endW_silenceFrames, endW_noiseFloor]

lemma foldSq_nan (l : List JsNum) :
    l.foldl (fun t x => t.add (x.mul x)) JsNum.nan = JsNum.nan := by
  induction l with
  | nil => rfl
  | cons x t ih =>
    have h : JsNum.nan.add (x.mul x) = JsNum.nan := by
      cases x <;> rfl
    simp only [List.foldl_cons, h, ih]

lemma sumSquares_nan : ∀ {l : List JsNum}, JsNum.nan ∈ l → sumSquares l = JsNum.nan := by
  suffices H : ∀ (l : List JsNum) (acc : JsNum), JsNum.nan ∈ l →
      l.foldl (fun t x => t.add (x.mul x)) acc = JsNum.nan by
    intro l h
    exact H l (.num 0) h
  intro l
  induction l with
  | nil => intro acc h; cases h
  | cons x t ih =>
    intro acc h
    rcases List.mem_cons.mp h with rfl | h
    · have hx : acc.add (JsNum.nan.mul JsNum.nan) = JsNum.nan := by
        cases acc <;> rfl
      simp only [List.foldl_cons, hx, foldSq_nan]
    · simp only [List.foldl_cons]
      exact ih _ h

/-! ### Claim theorems -/

/-- C10: processing a `'stop'` control message resets the clustering and
segment state (centroids, feature buffer, current speaker id, last
speech timestamp, silence frame counter) but leaves the adaptive
`noiseFloor` unchanged at its last adapted value; a subsequent session
handled by the same worker instance therefore starts from the previous
session's noise floor (shown on a concrete run whose post-stop noise
floor differs from the initial baseline `0.003`). -/
theorem c10_stop_preserves_noise_floor :
    (∀ (t0 : Option ℚ) (s : WState),
      (stopHandler t0 s).1.noiseFloor = s.noiseFloor ∧
      (stopHandler t0 s).1.centroids = [] ∧
      (stopHandler t0 s).1.featureBuffer = [] ∧
      (stopHandler t0 s).1.currentSpeakerId = none ∧
      (stopHandler t0 s).1.lastSpeechTimestamp = 0 ∧
      (stopHandler t0 s).1.silenceFrames = 0) ∧
    (runW 2 initWState [WEvent.audio 1 [] 5, WEvent.stop none]).1.noiseFloor
        = 1597 / 200000 ∧
    (1597 / 200000 : ℚ) ≠ initWState.noiseFloor := by
  refine ⟨?_, ?_, by norm_num [initWState]⟩
  · intro t0 s
    cases h : s.currentSpeakerId <;> simp [stopHandler, endCurrentSegmentW, h]
  · norm_num [runW, stepW, processFeatures, noiseFloorNext, vadThr, stopHandler,
      endCurrentSegmentW, initWState, max_def]

/-- C3 (amended): the worker's `'config'` handler performs no
validation: `expectedSpeakers = 0` (or a missing value) is silently
replaced by the default `2` via JavaScript `||`, a negative value is
accepted unchanged, and in every case the worker replies `'ready'` —
no configuration error is ever produced. -/
theorem c3_config_amended :
    ∀ es sr : Int,
      (configHandler es sr).2 = [WMsg.ready] ∧
      (configHandler es sr).1.expectedSpeakers = (if es = 0 then 2 else es) ∧
      WMsg.error ∉ (configHandler es sr).2 := by
  intro es sr
  refine ⟨rfl, rfl, ?_⟩
  simp [configHandler]

/-- C3 (counterexample): the configuration `expectedSpeakers = -1`
(which is `≤ 0`) is not rejected: the handler stores `-1` and replies
`'ready'`, emitting no error — contradicting the claim that such a
configuration is rejected with a configuration error before any
processing. -/
theorem c3_counterexample :
    (-1 : Int) ≤ 0 ∧
    (configHandler (-1) 16000).1.expectedSpeakers = -1 ∧
    (configHandler (-1) 16000).2 = [WMsg.ready] ∧
    WMsg.error ∉ (configHandler (-1) 16000).2 := by decide

/-- C6: on every processed frame the VAD first updates the noise floor
as `noiseFloor * 0.995 + rms * 0.005`, computes the threshold
`max(noiseFloor * 2.5, 0.0045)` from the updated floor, and takes the
speech path (observable as the silence counter being reset to `0`)
exactly when `rms ≥ threshold`; the absolute minimum `0.0045` is a fixed
positive constant. -/
theorem c6_vad :
    ∀ (expected : Int) (rms : ℚ) (mfcc : List ℚ) (t0 : ℚ) (s : WState),
      (processFeatures expected rms mfcc t0 s).1.noiseFloor
          = s.noiseFloor * (995 / 1000) + rms * (5 / 1000) ∧
      ((processFeatures expected rms mfcc t0 s).1.silenceFrames = 0
          ↔ max ((s.noiseFloor * (995 / 1000) + rms * (5 / 1000)) * (25 / 10))
              (45 / 10000) ≤ rms) ∧
      (0 : ℚ) < 45 / 10000 := by
  intro expected rms mfcc t0 s
  by_cases h : rms < vadThr s rms
  · rw [processFeatures_silence expected rms mfcc t0 s h]
    have hth : ¬ max ((s.noiseFloor * (995 / 1000) + rms * (5 / 1000)) * (25 / 10))
        (45 / 10000) ≤ rms := by
      rw [not_le]
      exact h
    split_ifs with h1 <;>
      simp [endW_noiseFloor, endW_silenceFrames, noiseFloorNext, hth]
  · obtain ⟨h1, h2⟩ := processFeatures_speech_fields expected rms mfcc t0 s h
    have hth : max ((s.noiseFloor * (995 / 1000) + rms * (5 / 1000)) * (25 / 10))
        (45 / 10000) ≤ rms := by
      have := not_lt.mp h
      exact this
    refine ⟨by rw [h2]; rfl, by simp [h1, hth], by norm_num⟩

/-- C4: a frame that is empty or contains a `NaN` sample is dropped
silently: the session state is left unchanged, no message (in
particular no error and nothing fatal) is posted, and processing of the
remaining frames continues exactly as if the frame had not arrived. -/
theorem c4_malformed_frame_dropped :
    ∀ (expected : Int) (f : RawFrame) (s : WState) (rest : List RawFrame),
      f.samples = [] ∨ JsNum.nan ∈ f.samples →
        processFrameRaw expected f s = (s, []) ∧
        runRaw expected s (f :: rest) = runRaw expected s rest := by
  intro expected f s rest h
  have hdrop : processFrameRaw expected f s = (s, []) := by
    rcases h with h | h
    · simp [processFrameRaw, h]
    · have hne : ¬ f.samples = [] := by
        intro h0
        rw [h0] at h
        cases h
      simp [processFrameRaw, hne, sumSquares_nan h]
  refine ⟨hdrop, ?_⟩
  simp only [runRaw, hdrop, List.nil_append]

/-- C4 witness: the concrete frame `[1, NaN]` is dropped with the state
unchanged and processing continuing. -/
theorem c4_malformed_frame_witness :
    processFrameRaw 2 ⟨[JsNum.num 1, JsNum.nan], 1, [1, 0], 3⟩ initWState
        = (initWState, []) ∧
    runRaw 2 initWState [⟨[JsNum.num 1, JsNum.nan], 1, [1, 0], 3⟩]
        = runRaw 2 initWState [] :=
  c4_malformed_frame_dropped 2 ⟨[JsNum.num 1, JsNum.nan], 1, [1, 0], 3⟩
    initWState [] (Or.inr (by decide))

/-- C1 (amended): the two implementations disagree. The hook variant
(`src/hooks/useDiarization.ts`) emits a closed segment exactly when
`endMs - startMs >= MIN_SEGMENT_DURATION_MS` (a segment of duration
exactly `MIN_SEGMENT_DURATION_MS` is kept, one of
`MIN_SEGMENT_DURATION_MS - 1` is dropped); the canonical worker engine
(`src/unnamed/part_003`) applies no minimum-duration filter at all — a
closed segment is emitted exactly when its computed end time is
strictly greater than its start. -/
theorem c1_min_duration_amended :
    (∀ (seg : Segment) (segs : List Segment) (asp : Option Nat) (endTime : ℚ),
        (endCurrentSegmentHook endTime ⟨some seg, segs, asp⟩).segments
            = segs ++ [{ seg with endMs := endTime }]
          ↔ MIN_SEGMENT_DURATION_MS ≤ endTime - seg.startMs) ∧
    (endCurrentSegmentHook 300 ⟨some ⟨1, 0, 100⟩, [], none⟩).segments
        = [⟨1, 0, 300⟩] ∧
    (endCurrentSegmentHook 299 ⟨some ⟨1, 0, 100⟩, [], none⟩).segments = [] ∧
    (∀ (ts startMs lastSp nf : ℚ) (sid : Nat) (fb : List (List ℚ))
        (cs : List Centroid) (sf : Nat),
        (endCurrentSegmentW ts ⟨fb, cs, some sid, startMs, lastSp, sf, nf⟩).2 ≠ []
          ↔ startMs < (if lastSp > 0 then lastSp else ts)) := by
  refine ⟨?_, ?_, ?_, ?_⟩
  · intro seg segs asp endTime
    simp only [endCurrentSegmentHook]
    by_cases h : MIN_SEGMENT_DURATION_MS ≤ endTime - seg.startMs
    · simp [h]
    · simp only [if_neg h]
      constructor
      · intro hEq
        have hlen := congrArg List.length hEq
        simp at hlen
      · intro hh
        exact absurd hh h
  · norm_num [endCurrentSegmentHook, MIN_SEGMENT_DURATION_MS]
  · norm_num [endCurrentSegmentHook, MIN_SEGMENT_DURATION_MS]
  · intro ts startMs lastSp nf sid fb cs sf
    simp only [endCurrentSegmentW]
    by_cases h : startMs < (if lastSp > 0 then lastSp else ts)
    · simp [h]
    · simp [h]

/-- C7 (amended): with the VAD threshold computed as in C6, a
silence-classified frame increments the silence counter, and the open
segment is closed exactly when the counter after the increment is
strictly greater than `SILENCE_THRESHOLD_FRAMES` — i.e. on the
`(SILENCE_THRESHOLD_FRAMES + 1)`-th consecutive silence frame, not the
`SILENCE_THRESHOLD_FRAMES`-th; a speech-classified frame resets the
counter to zero. -/
theorem c7_silence_amended :
    ∀ (expected : Int) (rms : ℚ) (mfcc : List ℚ) (t0 : ℚ) (s : WState),
      (rms < vadThr s rms →
        (processFeatures expected rms mfcc t0 s).1.silenceFrames
            = s.silenceFrames + 1 ∧
        (processFeatures expected rms mfcc t0 s).1.currentSpeakerId
            = (if SILENCE_THRESHOLD_FRAMES < s.silenceFrames + 1 then none
               else s.currentSpeakerId)) ∧
      (vadThr s rms ≤ rms →
        (processFeatures expected rms mfcc t0 s).1.silenceFrames = 0) := by
  intro expected rms mfcc t0 s
  constructor
  · intro h
    rw [processFeatures_silence expected rms mfcc t0 s h]
    by_cases h1 : SILENCE_THRESHOLD_FRAMES < s.silenceFrames + 1
    · simp [h1, endW_silenceFrames, endW_speaker']
    · simp [h1]
  · intro h
    exact (processFeatures_speech_fields expected rms mfcc t0 s (not_lt.mpr h)).1

/-- C7 witness: a silence frame arriving with the counter at 9 leaves
the segment open (the 10th consecutive silence frame does not close
it), and a speech frame on the initial state resets the counter. -/
theorem c7_silence_witness :
    ((processFeatures 2 0 [] 3 ⟨[], [⟨1, [1]⟩], some 1, 1, 2, 9, 0⟩).1.silenceFrames
        = 9 + 1 ∧
     (processFeatures 2 0 [] 3 ⟨[], [⟨1, [1]⟩], some 1, 1, 2, 9, 0⟩).1.currentSpeakerId
        = (if SILENCE_THRESHOLD_FRAMES < 9 + 1 then none else some 1)) ∧
    (processFeatures 2 1 [] 3 initWState).1.silenceFrames = 0 :=
  ⟨(c7_silence_amended 2 0 [] 3 ⟨[], [⟨1, [1]⟩], some 1, 1, 2, 9, 0⟩).1
      (by norm_num [vadThr, noiseFloorNext, max_def]),
   (c7_silence_amended 2 1 [] 3 initWState).2
      (by norm_num [vadThr, noiseFloorNext, initWState, max_def])⟩

set_option maxHeartbeats 1000000 in
/-- C7 (counterexample): from a state with an open segment and a zero
silence counter, `SILENCE_THRESHOLD_FRAMES` (= 10) consecutive
silence-classified frames do not close the segment — it is still open —
while one further silence frame closes it; this refutes the claim that
the segment becomes eligible to close exactly when
`SILENCE_THRESHOLD_FRAMES` consecutive silence frames have
accumulated. -/
theorem c7_counterexample :
    (runW 2 (⟨[], [⟨1, [1]⟩], some 1, 1, 2, 0, 0⟩ : WState)
        [WEvent.audio 0 [] 3, WEvent.audio 0 [] 3, WEvent.audio 0 [] 3,
         WEvent.audio 0 [] 3, WEvent.audio 0 [] 3, WEvent.audio 0 [] 3,
         WEvent.audio 0 [] 3, WEvent.audio 0 [] 3, WEvent.audio 0 [] 3,
         WEvent.audio 0 [] 3]).1.currentSpeakerId = some 1 ∧
    (runW 2 (⟨[], [⟨1, [1]⟩], some 1, 1, 2, 0, 0⟩ : WState)
        [WEvent.audio 0 [] 3, WEvent.audio 0 [] 3, WEvent.audio 0 [] 3,
         WEvent.audio 0 [] 3, WEvent.audio 0 [] 3, WEvent.audio 0 [] 3,
         WEvent.audio 0 [] 3, WEvent.audio 0 [] 3, WEvent.audio 0 [] 3,
         WEvent.audio 0 [] 3, WEvent.audio 0 [] 3]).1.currentSpeakerId = none := by
  constructor <;>
    norm_num [runW, stepW, processFeatures, noiseFloorNext, vadThr, max_def,
      endCurrentSegmentW, SILENCE_THRESHOLD_FRAMES]

/-- C2 (amended): the heartbeat supervision restarts after a single
missed heartbeat cycle — two interval ticks with no intervening pong
yield exactly one restart with the restart counter at 1 and a fresh
engine state; once the counter has reached `MAX_RESTARTS`, the next
missed cycle only clears the interval and logs a console failure
(performing no restart and surfacing no error to the caller — the hook
exposes no error channel); and once the interval is cleared no later
event ever produces another restart. -/
theorem c2_heartbeat_amended :
    (hbRun hbInit [HBEvent.tick, HBEvent.tick]
        = { gotPong := true, restartAttempts := 1, heartbeatActive := true,
            engine := initWState, restarts := 1, consoleFailures := 0 }) ∧
    (∀ s : HBState, s.heartbeatActive = true → s.gotPong = false →
        s.restartAttempts = MAX_RESTARTS →
        hbStep s HBEvent.tick
          = { s with heartbeatActive := false,
                     consoleFailures := s.consoleFailures + 1 }) ∧
    (∀ (s : HBState) (evs : List HBEvent), s.heartbeatActive = false →
        (hbRun s evs).restarts = s.restarts ∧
        (hbRun s evs).heartbeatActive = false) := by
  refine ⟨?_, ?_, ?_⟩
  · simp [hbRun, hbStep, hbInit, MAX_RESTARTS]
  · intro s h1 h2 h3
    simp [hbStep, h1, h2, h3, MAX_RESTARTS]
  · intro s evs
    induction evs generalizing s with
    | nil =>
      intro h
      exact ⟨rfl, h⟩
    | cons e es ih =>
      intro h
      cases e with
      | pong =>
        have hres := ih { s with gotPong := true, restartAttempts := 0 } (by simpa using h)
        have hp : hbStep s HBEvent.pong = { s with gotPong := true, restartAttempts := 0 } := rfl
        simpa [hbRun, List.foldl_cons, hp] using hres
      | tick =>
        have hs : hbStep s HBEvent.tick = s := by simp [hbStep, h]
        have hres := ih s h
        simpa [hbRun, List.foldl_cons, hs] using hres

/-- C2 witness: at the restart cap a missed cycle clears the interval
without restarting, and from the cleared state no sequence of further
events produces a restart. -/
theorem c2_heartbeat_witness :
    hbStep { gotPong := false, restartAttempts := 3, heartbeatActive := true,
             engine := initWState, restarts := 3, consoleFailures := 0 }
        HBEvent.tick
      = { gotPong := false, restartAttempts := 3, heartbeatActive := false,
          engine := initWState, restarts := 3, consoleFailures := 1 } ∧
    (hbRun { gotPong := false, restartAttempts := 3, heartbeatActive := false,
             engine := initWState, restarts := 3, consoleFailures := 1 }
        [HBEvent.tick, HBEvent.pong, HBEvent.tick]).restarts = 3 :=
  ⟨c2_heartbeat_amended.2.1 _ rfl rfl rfl,
   (c2_heartbeat_amended.2.2 _ _ rfl).1⟩

/-- C2 (counterexample): one missed pong does cause a restart — from a
fresh session, a tick (which sends the ping) followed by a second tick
with no pong in between performs a restart, leaving the restart counter
at 1; this refutes the claim that a single missed `Pong` causes no
restart and that three consecutive missed cycles are required. -/
theorem c2_counterexample :
    (hbRun hbInit [HBEvent.tick, HBEvent.tick]).restarts = 1 ∧
    (hbRun hbInit [HBEvent.tick, HBEvent.tick]).restartAttempts = 1 := by
  constructor <;> simp [hbRun, hbStep, hbInit, MAX_RESTARTS]
set_option maxHeartbeats 1600000 in
set_option linter.unreachableTactic false in
set_option linter.unusedTactic false in
/-- C1 (counterexample): starting from the initial worker state, seven
speech frames at 0..6 ms followed by `'stop'` at 7 ms make the engine
emit the finalized segment `⟨S1, 5, 6⟩` of duration `1 ms`, which is
far below `MIN_SEGMENT_DURATION_MS - 1`: the worker engine applies no
minimum-duration filter, refuting the claimed emission condition
`endMs - startMs >= MIN_SEGMENT_DURATION_MS`. -/
theorem c1_counterexample :
    emittedSegments (runW 2 initWState
      [WEvent.audio 1 [1] 0, WEvent.audio 1 [1] 1, WEvent.audio 1 [1] 2,
       WEvent.audio 1 [1] 3, WEvent.audio 1 [1] 4, WEvent.audio 1 [1] 5,
       WEvent.audio 1 [1] 6, WEvent.stop (some 7)]).2
        = [⟨1, 5, 6⟩] ∧
    (6 : ℚ) - 5 < MIN_SEGMENT_DURATION_MS := by
  have h0 : stepW 2 (initWState : WState) (WEvent.audio 1 [1] 0)
      = ((⟨[[1]], [], none, 0, 0, 0, 1597 / 200000⟩ : WState), []) := by
    refine ?_
    norm_num [stepW, processFeatures, noiseFloorNext, vadThr, max_def, clusterStep,
      distList, minDist, closestIdx, bufferPush, windowMean,
      cosineDistance, dLt, dEq, dGtQ, rsLt, rsEq, emaUpdate, endCurrentSegmentW,
      stopHandler, initWState,
      MAX_FEATURE_BUFFER_LENGTH, SILENCE_THRESHOLD_FRAMES, CHANGE_THRESHOLD,
      List.range_succ, List.range_zero, List.map_cons, List.map_nil, List.sum_cons,
      List.sum_nil, List.zip_cons_cons, List.zip_nil_right, List.zip_nil_left,
      List.getD_cons_zero, List.getD_cons_succ, List.foldl_cons, List.foldl_nil,
      List.findIdx_cons, List.headD, List.tail_cons, List.zipWith_cons_cons,
      List.zipWith_nil_right, List.zipWith_nil_left, Function.comp]
    all_goals simp
  have h1 : stepW 2 (⟨[[1]], [], none, 0, 0, 0, 1597 / 200000⟩ : WState) (WEvent.audio 1 [1] 1)
      = ((⟨[[1], [1]], [], none, 0, 1, 0, 517803 / 40000000⟩ : WState), []) := by
    refine ?_
    norm_num [stepW, processFeatures, noiseFloorNext, vadThr, max_def, clusterStep,
      distList, minDist, closestIdx, bufferPush, windowMean,
      cosineDistance, dLt, dEq, dGtQ, rsLt, rsEq, emaUpdate, endCurrentSegmentW,
      stopHandler, initWState,
      MAX_FEATURE_BUFFER_LENGTH, SILENCE_THRESHOLD_FRAMES, CHANGE_THRESHOLD,
      List.range_succ, List.range_zero, List.map_cons, List.map_nil, List.sum_cons,
      List.sum_nil, List.zip_cons_cons, List.zip_nil_right, List.zip_nil_left,
      List.getD_cons_zero, List.getD_cons_succ, List.foldl_cons, List.foldl_nil,
      List.findIdx_cons, List.headD, List.tail_cons, List.zipWith_cons_cons,
      List.zipWith_nil_right, List.zipWith_nil_left, Function.comp]
    all_goals simp
  have h2 : stepW 2 (⟨[[1], [1]], [], none, 0, 1, 0, 517803 / 40000000⟩ : WState) (WEvent.audio 1 [1] 2)
      = ((⟨[[1], [1], [1]], [], none, 0, 2, 0, 143042797 / 8000000000⟩ : WState), []) := by
    refine ?_
    norm_num [stepW, processFeatures, noiseFloorNext, vadThr, max_def, clusterStep,
      distList, minDist, closestIdx, bufferPush, windowMean,
      cosineDistance, dLt, dEq, dGtQ, rsLt, rsEq, emaUpdate, endCurrentSegmentW,
      stopHandler, initWState,
      MAX_FEATURE_BUFFER_LENGTH, SILENCE_THRESHOLD_FRAMES, CHANGE_THRESHOLD,
      List.range_succ, List.range_zero, List.map_cons, List.map_nil, List.sum_cons,
      List.sum_nil, List.zip_cons_cons, List.zip_nil_right, List.zip_nil_left,
      List.getD_cons_zero, List.getD_cons_succ, List.foldl_cons, List.foldl_nil,
      List.findIdx_cons, List.headD, List.tail_cons, List.zipWith_cons_cons,
      List.zipWith_nil_right, List.zipWith_nil_left, Function.comp]
    all_goals simp
  have h3 : stepW 2 (⟨[[1], [1], [1]], [], none, 0, 2, 0, 143042797 / 8000000000⟩ : WState) (WEvent.audio 1 [1] 3)
      = ((⟨[[1], [1], [1], [1]], [], none, 0, 3, 0, 36465516603 / 1600000000000⟩ : WState), []) := by
    refine ?_
    norm_num [stepW, processFeatures, noiseFloorNext, vadThr, max_def, clusterStep,
      distList, minDist, closestIdx, bufferPush, windowMean,
      cosineDistance, dLt, dEq, dGtQ, rsLt, rsEq, emaUpdate, endCurrentSegmentW,
      stopHandler, initWState,
      MAX_FEATURE_BUFFER_LENGTH, SILENCE_THRESHOLD_FRAMES, CHANGE_THRESHOLD,
      List.range_succ, List.range_zero, List.map_cons, List.map_nil, List.sum_cons,
      List.sum_nil, List.zip_cons_cons, List.zip_nil_right, List.zip_nil_left,
      List.getD_cons_zero, List.getD_cons_succ, List.foldl_cons, List.foldl_nil,
      List.findIdx_cons, List.headD, List.tail_cons, List.zipWith_cons_cons,
      List.zipWith_nil_right, List.zipWith_nil_left, Function.comp]
    all_goals simp
  have h4 : stepW 2 (⟨[[1], [1], [1], [1]], [], none, 0, 3, 0, 36465516603 / 1600000000000⟩ : WState) (WEvent.audio 1 [1] 4)
      = ((⟨[[1], [1], [1], [1], [1]], [], none, 0, 4, 0, 8856637803997 / 320000000000000⟩ : WState), []) := by
    refine ?_
    norm_num [stepW, processFeatures, noiseFloorNext, vadThr, max_def, clusterStep,
      distList, minDist, closestIdx, bufferPush, windowMean,
      cosineDistance, dLt, dEq, dGtQ, rsLt, rsEq, emaUpdate, endCurrentSegmentW,
      stopHandler, initWState,
      MAX_FEATURE_BUFFER_LENGTH, SILENCE_THRESHOLD_FRAMES, CHANGE_THRESHOLD,
      List.range_succ, List.range_zero, List.map_cons, List.map_nil, List.sum_cons,
      List.sum_nil, List.zip_cons_cons, List.zip_nil_right, List.zip_nil_left,
      List.getD_cons_zero, List.getD_cons_succ, List.foldl_cons, List.foldl_nil,
      List.findIdx_cons, List.headD, List.tail_cons, List.zipWith_cons_cons,
      List.zipWith_nil_right, List.zipWith_nil_left, Function.comp]
    all_goals simp
  have h5 : stepW 2 (⟨[[1], [1], [1], [1], [1]], [], none, 0, 4, 0, 8856637803997 / 320000000000000⟩ : WState) (WEvent.audio 1 [1] 5)
      = ((⟨[[1], [1], [1], [1], [1], [1]], [⟨1, [1]⟩], some 1, 5, 5, 0, 2082470922995403 / 64000000000000000⟩ : WState), [WMsg.activeSpeaker 1]) := by
    refine ?_
    norm_num [stepW, processFeatures, noiseFloorNext, vadThr, max_def, clusterStep,
      distList, minDist, closestIdx, bufferPush, windowMean,
      cosineDistance, dLt, dEq, dGtQ, rsLt, rsEq, emaUpdate, endCurrentSegmentW,
      stopHandler, initWState,
      MAX_FEATURE_BUFFER_LENGTH, SILENCE_THRESHOLD_FRAMES, CHANGE_THRESHOLD,
      List.range_succ, List.range_zero, List.map_cons, List.map_nil, List.sum_cons,
      List.sum_nil, List.zip_cons_cons, List.zip_nil_right, List.zip_nil_left,
      List.getD_cons_zero, List.getD_cons_succ, List.foldl_cons, List.foldl_nil,
      List.findIdx_cons, List.headD, List.tail_cons, List.zipWith_cons_cons,
      List.zipWith_nil_right, List.zipWith_nil_left, Function.comp]
    all_goals simp
  have h6 : stepW 2 (⟨[[1], [1], [1], [1], [1], [1]], [⟨1, [1]⟩], some 1, 5, 5, 0, 2082470922995403 / 64000000000000000⟩ : WState) (WEvent.audio 1 [1] 6)
      = ((⟨[[1], [1], [1], [1], [1], [1], [1]], [⟨1, [1]⟩], some 1, 5, 6, 0, 478411713676085197 / 12800000000000000000⟩ : WState), []) := by
    refine ?_
    norm_num [stepW, processFeatures, noiseFloorNext, vadThr, max_def, clusterStep,
      distList, minDist, closestIdx, bufferPush, windowMean,
      cosineDistance, dLt, dEq, dGtQ, rsLt, rsEq, emaUpdate, endCurrentSegmentW,
      stopHandler, initWState,
      MAX_FEATURE_BUFFER_LENGTH, SILENCE_THRESHOLD_FRAMES, CHANGE_THRESHOLD,
      List.range_succ, List.range_zero, List.map_cons, List.map_nil, List.sum_cons,
      List.sum_nil, List.zip_cons_cons, List.zip_nil_right, List.zip_nil_left,
      List.getD_cons_zero, List.getD_cons_succ, List.foldl_cons, List.foldl_nil,
      List.findIdx_cons, List.headD, List.tail_cons, List.zipWith_cons_cons,
      List.zipWith_nil_right, List.zipWith_nil_left, Function.comp]
    all_goals simp
  have h7 : stepW 2 (⟨[[1], [1], [1], [1], [1], [1], [1]], [⟨1, [1]⟩], some 1, 5, 6, 0, 478411713676085197 / 12800000000000000000⟩ : WState) (WEvent.stop (some 7))
      = ((⟨[], [], none, 5, 0, 0, 478411713676085197 / 12800000000000000000⟩ : WState), [WMsg.segments [⟨1, 5, 6⟩]]) := by
    refine ?_
    norm_num [stepW, processFeatures, noiseFloorNext, vadThr, max_def, clusterStep,
      distList, minDist, closestIdx, bufferPush, windowMean,
      cosineDistance, dLt, dEq, dGtQ, rsLt, rsEq, emaUpdate, endCurrentSegmentW,
      stopHandler, initWState,
      MAX_FEATURE_BUFFER_LENGTH, SILENCE_THRESHOLD_FRAMES, CHANGE_THRESHOLD,
      List.range_succ, List.range_zero, List.map_cons, List.map_nil, List.sum_cons,
      List.sum_nil, List.zip_cons_cons, List.zip_nil_right, List.zip_nil_left,
      List.getD_cons_zero, List.getD_cons_succ, List.foldl_cons, List.foldl_nil,
      List.findIdx_cons, List.headD, List.tail_cons, List.zipWith_cons_cons,
      List.zipWith_nil_right, List.zipWith_nil_left, Function.comp]
    all_goals simp
  refine ⟨?_, by norm_num [MIN_SEGMENT_DURATION_MS]⟩
  simp only [runW, h0, h1, h2, h3, h4, h5, h6, h7, emittedSegments,
    List.flatMap_cons, List.flatMap_nil]
  simp



/-- `j` is the first index of `ds` attaining the minimum represented
distance value: it is a lower bound for every entry and strictly below
every earlier entry (ties are therefore broken in favour of the first
created centroid). -/
def IsFirstMin (ds : List CosD) (j : Nat) : Prop :=
  j < ds.length ∧
  (∀ i, i < ds.length → dVal (ds.getD j ⟨0, 1⟩) ≤ dVal (ds.getD i ⟨0, 1⟩)) ∧
  (∀ i, i < j → dVal (ds.getD j ⟨0, 1⟩) < dVal (ds.getD i ⟨0, 1⟩))

/-- C5: when at least one centroid exists, the clustering step computes
the cosine distance from the smoothed vector to every centroid; if the
minimum distance is strictly greater than `CHANGE_THRESHOLD` (0.4) and
the centroid count is strictly below `expectedSpeakers`, a new centroid
with the next sequential id is appended, seeded with the vector, and
its id is returned; otherwise the first centroid attaining the minimum
distance (ties broken by insertion order — first created wins) has its
vector replaced by the EMA `centroid*(1-α) + vector*α` with `α = 0.02`
and its id is returned.  The "minimum distance > threshold" condition
is stated as every distance exceeding the threshold, which is
equivalent for the minimum. -/
theorem c5_clustering :
    ∀ (expected : Int) (mean : List ℚ) (c0 : Centroid) (rest : List Centroid),
      ((∀ d ∈ distList mean (c0 :: rest), dGtQ d CHANGE_THRESHOLD = true) →
        ((c0 :: rest).length : Int) < expected →
        clusterStep expected mean (c0 :: rest)
          = ((c0 :: rest).length + 1,
             (c0 :: rest) ++ [⟨(c0 :: rest).length + 1, mean⟩])) ∧
      ((¬ (∀ d ∈ distList mean (c0 :: rest), dGtQ d CHANGE_THRESHOLD = true) ∨
          expected ≤ ((c0 :: rest).length : Int)) →
        IsFirstMin (distList mean (c0 :: rest)) (closestIdx mean c0 rest) ∧
        clusterStep expected mean (c0 :: rest)
          = (((c0 :: rest).getD (closestIdx mean c0 rest) ⟨0, []⟩).id,
             (c0 :: rest).set (closestIdx mean c0 rest)
               { (c0 :: rest).getD (closestIdx mean c0 rest) ⟨0, []⟩ with
                   vector := emaUpdate
                     ((c0 :: rest).getD (closestIdx mean c0 rest) ⟨0, []⟩).vector
                     mean })) := by
  intro expected mean c0 rest
  obtain ⟨hminmem, hminden, hjlt, hgetj, hlb, hfirst⟩ :=
    clusterMin_spec mean c0 rest (distList mean (c0 :: rest))
      (minDist mean c0 rest) (closestIdx mean c0 rest) rfl rfl rfl
  have hdens : ∀ d ∈ distList mean (c0 :: rest), 0 < d.den := by
    intro d hd
    obtain ⟨c, _, rfl⟩ := List.mem_map.mp hd
    exact cosineDistance_den_pos mean c.vector
  have hstep : clusterStep expected mean (c0 :: rest)
      = if dGtQ (minDist mean c0 rest) CHANGE_THRESHOLD
            && decide ((((c0 :: rest) : List Centroid).length : Int) < expected) then
          ((c0 :: rest).length + 1, (c0 :: rest) ++ [⟨(c0 :: rest).length + 1, mean⟩])
        else
          (((c0 :: rest).getD (closestIdx mean c0 rest) ⟨0, []⟩).id,
           (c0 :: rest).set (closestIdx mean c0 rest)
             { (c0 :: rest).getD (closestIdx mean c0 rest) ⟨0, []⟩ with
                 vector := emaUpdate
                   ((c0 :: rest).getD (closestIdx mean c0 rest) ⟨0, []⟩).vector
                   mean }) := rfl
  constructor
  · intro hall hlen
    rw [hstep, if_pos]
    rw [Bool.and_eq_true, decide_eq_true_eq]
    exact ⟨hall _ hminmem, hlen⟩
  · intro hor
    have hcondf : ¬ (dGtQ (minDist mean c0 rest) CHANGE_THRESHOLD
        && decide ((((c0 :: rest) : List Centroid).length : Int) < expected)) = true := by
      rw [Bool.and_eq_true, decide_eq_true_eq]
      rintro ⟨hgt, hlen⟩
      rcases hor with hor | hor
      · apply hor
        intro d hd
        have hmd : (CHANGE_THRESHOLD : ℝ) < dVal (minDist mean c0 rest) :=
          (dGtQ_iff _ _ hminden).mp hgt
        exact (dGtQ_iff d _ (hdens d hd)).mpr (lt_of_lt_of_le hmd (hlb d hd))
      · exact absurd hlen (not_lt.mpr hor)
    refine ⟨⟨hjlt, ?_, ?_⟩, ?_⟩
    · intro i hi
      rw [hgetj]
      have hmem : (distList mean (c0 :: rest)).getD i ⟨0, 1⟩
          ∈ distList mean (c0 :: rest) := by
        rw [List.getD_eq_getElem _ _ hi]
        exact List.getElem_mem hi
      exact hlb _ hmem
    · intro i hij
      rw [hgetj]
      exact hfirst i hij
    · rw [hstep, if_neg hcondf]

/-- C5 witness: with one centroid at `[1,0]` and `expectedSpeakers = 2`,
the orthogonal smoothed vector `[0,1]` (cosine distance 1 > 0.4)
creates centroid `S2`; with `expectedSpeakers = 1`, the vector `[1,0]`
is assigned to the first minimum-distance centroid and EMA-updated. -/
theorem c5_clustering_witness :
    clusterStep 2 [0, 1] [⟨1, [1, 0]⟩]
        = ([(⟨1, [1, 0]⟩ : Centroid)].length + 1,
           [(⟨1, [1, 0]⟩ : Centroid)]
             ++ [⟨[(⟨1, [1, 0]⟩ : Centroid)].length + 1, [0, 1]⟩]) ∧
    (IsFirstMin (distList [1, 0] [⟨1, [1, 0]⟩]) (closestIdx [1, 0] ⟨1, [1, 0]⟩ []) ∧
     clusterStep 1 [1, 0] [⟨1, [1, 0]⟩]
        = (([(⟨1, [1, 0]⟩ : Centroid)].getD
              (closestIdx [1, 0] ⟨1, [1, 0]⟩ []) ⟨0, []⟩).id,
           [(⟨1, [1, 0]⟩ : Centroid)].set (closestIdx [1, 0] ⟨1, [1, 0]⟩ [])
             { [(⟨1, [1, 0]⟩ : Centroid)].getD
                 (closestIdx [1, 0] ⟨1, [1, 0]⟩ []) ⟨0, []⟩ with
                 vector := emaUpdate
                   ([(⟨1, [1, 0]⟩ : Centroid)].getD
                     (closestIdx [1, 0] ⟨1, [1, 0]⟩ []) ⟨0, []⟩).vector
                   [1, 0] })) :=
  ⟨(c5_clustering 2 [0, 1] ⟨1, [1, 0]⟩ []).1
      (by
        intro d hd
        simp only [distList, List.map_cons, List.map_nil, List.mem_singleton] at hd
        subst hd
        norm_num [cosineDistance, dGtQ, rsLt, CHANGE_THRESHOLD, List.zip_cons_cons,
          List.zip_nil_right, List.map_cons, List.map_nil, List.sum_cons,
          List.sum_nil])
      (by norm_num),
   (c5_clustering 1 [1, 0] ⟨1, [1, 0]⟩ []).2 (Or.inr (by norm_num))⟩

lemma list_set_getD_self {α : Type} :
    ∀ (l : List α) (n : Nat) (d : α), n < l.length → l.set n (l.getD n d) = l := by
  intro l
  induction l with
  | nil =>
    intro n d h
    cases h
  | cons x t ih =>
    intro n d h
    cases n with
    | zero => simp
    | succ m =>
      simp only [List.getD_cons_succ, List.set_cons_succ]
      rw [ih m d (by simpa using h)]

lemma clusterStep_inv (expected : Int) (mean : List ℚ) (cs : List Centroid)
    (hexp : 1 ≤ expected)
    (hlen : (cs.length : Int) ≤ expected)
    (hids : cs.map Centroid.id = (List.range cs.length).map (· + 1)) :
    ((clusterStep expected mean cs).2.length : Int) ≤ expected ∧
    ((clusterStep expected mean cs).2.map Centroid.id
        = (List.range (clusterStep expected mean cs).2.length).map (· + 1)) ∧
    1 ≤ (clusterStep expected mean cs).1 ∧
    ((clusterStep expected mean cs).1 : Int) ≤ expected := by
  cases cs with
  | nil =>
    refine ⟨by simpa [clusterStep] using hexp, by simp [clusterStep, List.range_succ],
      by simp [clusterStep], by simpa [clusterStep] using hexp⟩
  | cons c0 rest =>
    have hres0 : clusterStep expected mean (c0 :: rest)
        = if dGtQ (minDist mean c0 rest) CHANGE_THRESHOLD
              && decide ((((c0 :: rest) : List Centroid).length : Int) < expected) then
            ((c0 :: rest).length + 1,
             (c0 :: rest) ++ [⟨(c0 :: rest).length + 1, mean⟩])
          else
            (((c0 :: rest).getD (closestIdx mean c0 rest) ⟨0, []⟩).id,
             (c0 :: rest).set (closestIdx mean c0 rest)
               { (c0 :: rest).getD (closestIdx mean c0 rest) ⟨0, []⟩ with
                   vector := emaUpdate
                     ((c0 :: rest).getD (closestIdx mean c0 rest) ⟨0, []⟩).vector
                     mean }) := rfl
    by_cases hc : (dGtQ (minDist mean c0 rest) CHANGE_THRESHOLD
        && decide ((((c0 :: rest) : List Centroid).length : Int) < expected)) = true
    · have hlt : (((c0 :: rest) : List Centroid).length : Int) < expected := by
        rw [Bool.and_eq_true, decide_eq_true_eq] at hc
        exact hc.2
      rw [hres0, if_pos hc]
      refine ⟨?_, ?_, by simp, ?_⟩
      · simp only [List.length_append, List.length_cons, List.length_nil] at hlt ⊢
        push_cast
        push_cast at hlt
        omega
      · simp only [List.map_append, List.map_cons, List.map_nil, List.length_append,
          List.length_cons, List.length_nil, hids]
        have h2 : rest.length + 1 + (0 + 1) = (rest.length + 1) + 1 := by omega
        rw [h2, List.range_succ, List.map_append, List.range_succ, List.map_append]
        rw [List.range_succ, List.map_append]
        simp
      · simp only [List.length_cons] at hlt ⊢
        push_cast
        push_cast at hlt
        omega
    · have hjlt' : closestIdx mean c0 rest < ((c0 :: rest) : List Centroid).length := by
        obtain ⟨_, _, hjlt, _, _, _⟩ :=
          clusterMin_spec mean c0 rest (distList mean (c0 :: rest))
            (minDist mean c0 rest) (closestIdx mean c0 rest) rfl rfl rfl
        simpa [distList] using hjlt
      rw [hres0, if_neg hc]
      have hidmem : ((c0 :: rest).getD (closestIdx mean c0 rest) ⟨0, []⟩).id
          ∈ (c0 :: rest).map Centroid.id := by
        rw [List.getD_eq_getElem _ _ hjlt']
        exact List.mem_map_of_mem _ (List.getElem_mem hjlt')
      rw [hids] at hidmem
      obtain ⟨i, hi, hid⟩ := List.mem_map.mp hidmem
      have hirange := List.mem_range.mp hi
      refine ⟨by simpa [List.length_set] using hlen, ?_, ?_, ?_⟩
      · have hidval : Centroid.id
            { (c0 :: rest).getD (closestIdx mean c0 rest) ⟨0, []⟩ with
                vector := emaUpdate
                  ((c0 :: rest).getD (closestIdx mean c0 rest) ⟨0, []⟩).vector mean }
            = ((c0 :: rest).getD (closestIdx mean c0 rest) ⟨0, []⟩).id := rfl
        rw [List.map_set, List.length_set, hidval]
        have hg : ((c0 :: rest).map Centroid.id).getD (closestIdx mean c0 rest) 0
            = ((c0 :: rest).getD (closestIdx mean c0 rest) ⟨0, []⟩).id := by
          rw [List.getD_eq_getElem _ _ (by simpa using hjlt'),
            List.getD_eq_getElem _ _ hjlt', List.getElem_map]
        rw [← hg, list_set_getD_self _ _ _ (by simpa using hjlt'), hids]
      · omega
      · have : (closestIdx mean c0 rest) < (c0 :: rest).length := hjlt'
        push_cast at hlen ⊢
        omega

/-- The centroid/speaker-id part of the session invariant for C9: the
centroid count is bounded by `expectedSpeakers`, the centroid ids are
exactly `1, 2, …, n` in creation order, and any open speaker id is in
range. -/
def CentOk (expected : Int) (s : WState) : Prop :=
  ((s.centroids.length : Int) ≤ expected) ∧
  (s.centroids.map Centroid.id = (List.range s.centroids.length).map (· + 1)) ∧
  (∀ sid, s.currentSpeakerId = some sid → 1 ≤ sid ∧ (sid : Int) ≤ expected)

lemma endW_ids (ts : ℚ) (s : WState) (expected : Int) (h : CentOk expected s) :
    CentOk expected (endCurrentSegmentW ts s).1 ∧
    ∀ i ∈ emittedIds (endCurrentSegmentW ts s).2, 1 ≤ i ∧ (i : Int) ≤ expected := by
  obtain ⟨h1, h2, h3⟩ := h
  cases hc : s.currentSpeakerId with
  | none =>
    simp only [endCurrentSegmentW, hc]
    exact ⟨⟨h1, h2, h3⟩, by simp [emittedIds]⟩
  | some sid =>
    simp only [endCurrentSegmentW, hc]
    constructor
    · refine ⟨h1, h2, ?_⟩
      intro sid' hsid'
      simp at hsid'
    · intro i hi
      by_cases hgt : (if s.lastSpeechTimestamp > 0 then s.lastSpeechTimestamp
          else ts) > s.currentSegmentStartMs
      · simp only [if_pos hgt, emittedIds, List.flatMap_cons, List.flatMap_nil,
          List.map_cons, List.map_nil, List.append_nil, List.mem_singleton] at hi
        exact hi ▸ h3 sid hc
      · simp [if_neg hgt, emittedIds] at hi

lemma processFeatures_CentOk (expected : Int) (rms : ℚ) (mfcc : List ℚ) (t0 : ℚ)
    (s : WState) (hexp : 1 ≤ expected) (h : CentOk expected s) :
    CentOk expected (processFeatures expected rms mfcc t0 s).1 ∧
    ∀ i ∈ emittedIds (processFeatures expected rms mfcc t0 s).2,
      1 ≤ i ∧ (i : Int) ≤ expected := by
  obtain ⟨h1, h2, h3⟩ := h
  by_cases hv : rms < vadThr s rms
  · rw [processFeatures_silence expected rms mfcc t0 s hv]
    by_cases hsil : s.silenceFrames + 1 > SILENCE_THRESHOLD_FRAMES
    · rw [if_pos hsil]
      exact endW_ids t0 _ expected ⟨h1, h2, h3⟩
    · rw [if_neg hsil]
      exact ⟨⟨h1, h2, h3⟩, by simp [emittedIds]⟩
  · simp only [processFeatures, if_neg hv]
    by_cases hm : mfcc = []
    · rw [if_pos hm]
      exact ⟨⟨h1, h2, h3⟩, by simp [emittedIds]⟩
    · rw [if_neg hm]
      by_cases hfb : (bufferPush s.featureBuffer mfcc).length
          < MAX_FEATURE_BUFFER_LENGTH / 2
      · rw [if_pos hfb]
        exact ⟨⟨h1, h2, h3⟩, by simp [emittedIds]⟩
      · rw [if_neg hfb]
        obtain ⟨hc1, hc2, hc3, hc4⟩ := clusterStep_inv expected
          (windowMean (bufferPush s.featureBuffer mfcc)) s.centroids hexp h1 h2
        by_cases hsame : s.currentSpeakerId
            = some (clusterStep expected
                (windowMean (bufferPush s.featureBuffer mfcc)) s.centroids).1
        · rw [if_pos hsame]
          refine ⟨⟨hc1, hc2, ?_⟩, by simp [emittedIds]⟩
          intro sid hsid
          exact h3 sid hsid
        · rw [if_neg hsame]
          have hend := endW_ids t0
            { s with noiseFloor := noiseFloorNext s rms, silenceFrames := 0,
                     lastSpeechTimestamp := t0,
                     featureBuffer := bufferPush s.featureBuffer mfcc,
                     centroids := (clusterStep expected
                       (windowMean (bufferPush s.featureBuffer mfcc)) s.centroids).2 }
            expected ⟨hc1, hc2, h3⟩
          refine ⟨⟨?_, ?_, ?_⟩, ?_⟩
          · simpa [endW_centroids] using hc1
          · simpa [endW_centroids] using hc2
          · intro sid hsid
            simp only [Option.some.injEq] at hsid
            exact hsid ▸ ⟨hc3, hc4⟩
          · intro i hi
            simp only [emittedIds, List.flatMap_append, List.flatMap_cons,
              List.flatMap_nil, List.append_nil, List.mem_append,
              List.mem_singleton] at hi
            rcases hi with hi | hi
            · exact hend.2 i (by simpa [emittedIds] using hi)
            · exact hi ▸ ⟨hc3, hc4⟩

lemma emittedIds_append (o1 o2 : List WMsg) :
    emittedIds (o1 ++ o2) = emittedIds o1 ++ emittedIds o2 := by
  simp [emittedIds]

lemma emittedSegments_append (o1 o2 : List WMsg) :
    emittedSegments (o1 ++ o2) = emittedSegments o1 ++ emittedSegments o2 := by
  simp [emittedSegments]

lemma stopHandler_CentOk (t0 : Option ℚ) (s : WState) (expected : Int)
    (hexp : 1 ≤ expected) (h : CentOk expected s) :
    CentOk expected (stopHandler t0 s).1 ∧
    ∀ i ∈ emittedIds (stopHandler t0 s).2, 1 ≤ i ∧ (i : Int) ≤ expected := by
  obtain ⟨hend1, hend2⟩ := endW_ids (t0.getD s.lastSpeechTimestamp) s expected h
  constructor
  · refine ⟨?_, ?_, ?_⟩
    · simp only [stopHandler, List.length_nil]
      omega
    · simp [stopHandler]
    · intro sid hsid
      simp [stopHandler] at hsid
  · intro i hi
    exact hend2 i (by simpa [stopHandler] using hi)

lemma stepW_CentOk (expected : Int) (s : WState) (e : WEvent)
    (hexp : 1 ≤ expected) (h : CentOk expected s) :
    CentOk expected (stepW expected s e).1 ∧
    ∀ i ∈ emittedIds (stepW expected s e).2, 1 ≤ i ∧ (i : Int) ≤ expected := by
  cases e with
  | audio rms mfcc t0 => exact processFeatures_CentOk expected rms mfcc t0 s hexp h
  | stop t0 => exact stopHandler_CentOk t0 s expected hexp h

lemma runW_CentOk (expected : Int) :
    ∀ (evs : List WEvent) (s : WState), 1 ≤ expected → CentOk expected s →
      CentOk expected (runW expected s evs).1 ∧
      ∀ i ∈ emittedIds (runW expected s evs).2, 1 ≤ i ∧ (i : Int) ≤ expected := by
  intro evs
  induction evs with
  | nil =>
    intro s hexp h
    exact ⟨h, by simp [runW, emittedIds]⟩
  | cons e es ih =>
    intro s hexp h
    obtain ⟨h1, h2⟩ := stepW_CentOk expected s e hexp h
    obtain ⟨h3, h4⟩ := ih (stepW expected s e).1 hexp h1
    constructor
    · simpa [runW] using h3
    · intro i hi
      simp only [runW, emittedIds_append, List.mem_append] at hi
      rcases hi with hi | hi
      · exact h2 i hi
      · exact h4 i hi

/-- C9: in any session configured with `expectedSpeakers ≥ 1`, after any
prefix of events the number of centroids never exceeds
`expectedSpeakers`; the centroid ids are exactly `S1, S2, …, Sn` in
creation order (hence never reused within the session); every speaker
id ever emitted (in a finalized segment or an `activeSpeaker` message)
lies in `{S1, …, S_expectedSpeakers}`; and so the number of distinct
speaker ids ever emitted is at most `expectedSpeakers`. -/
theorem c9_centroid_bound :
    ∀ (expected : Int) (evs : List WEvent), 1 ≤ expected →
      (((runW expected initWState evs).1.centroids.length : Int) ≤ expected) ∧
      ((runW expected initWState evs).1.centroids.map Centroid.id
          = (List.range (runW expected initWState evs).1.centroids.length).map
              (· + 1)) ∧
      (∀ i ∈ emittedIds (runW expected initWState evs).2,
        1 ≤ i ∧ (i : Int) ≤ expected) ∧
      (((emittedIds (runW expected initWState evs).2).toFinset.card : Int)
          ≤ expected) := by
  intro expected evs hexp
  have hinit : CentOk expected initWState := by
    refine ⟨?_, by simp [initWState], ?_⟩
    · simp only [initWState, List.length_nil]
      omega
    · intro sid hsid
      simp [initWState] at hsid
  obtain ⟨⟨h1, h2, _⟩, h4⟩ := runW_CentOk expected evs initWState hexp hinit
  refine ⟨h1, h2, h4, ?_⟩
  have hsub : (emittedIds (runW expected initWState evs).2).toFinset ⊆
      Finset.Icc 1 expected.toNat := by
    intro i hi
    rw [List.mem_toFinset] at hi
    obtain ⟨hi1, hi2⟩ := h4 i hi
    rw [Finset.mem_Icc]
    exact ⟨hi1, by omega⟩
  have hcard := Finset.card_le_card hsub
  rw [Nat.card_Icc] at hcard
  omega

/-- C9 witness: the bound instantiated for a concrete session with
`expectedSpeakers = 2`. -/
theorem c9_centroid_bound_witness :
    (((runW 2 initWState [WEvent.audio 1 [1] 0]).1.centroids.length : Int) ≤ 2) ∧
    ((runW 2 initWState [WEvent.audio 1 [1] 0]).1.centroids.map Centroid.id
        = (List.range (runW 2 initWState [WEvent.audio 1 [1] 0]).1.centroids.length).map
            (· + 1)) ∧
    (∀ i ∈ emittedIds (runW 2 initWState [WEvent.audio 1 [1] 0]).2,
      1 ≤ i ∧ (i : Int) ≤ 2) ∧
    (((emittedIds (runW 2 initWState [WEvent.audio 1 [1] 0]).2).toFinset.card : Int)
        ≤ 2) :=
  c9_centroid_bound 2 [WEvent.audio 1 [1] 0] (by norm_num)

/-- Ordering relation of C8 between two finalized segments: the earlier
one ends no later than the later one starts (half-open
non-overlapping), and the start times are strictly increasing. -/
def segOrdered (a b : Segment) : Prop :=
  a.endMs ≤ b.startMs ∧ a.startMs < b.startMs

/-- The session clock after an event: the event's timestamp, or
unchanged for a `'stop'` without a timestamp. -/
def evClock (c : ℚ) : WEvent → ℚ
  | .audio _ _ t => t
  | .stop (some t) => t
  | .stop none => c

/-- Whether an event's timestamp respects the current clock
(non-decreasing arrival order; timestamps are millisecond offsets from
session start, so the clock starts at 0). -/
def evTimeOk (c : ℚ) : WEvent → Bool
  | .audio _ _ t => decide (c ≤ t)
  | .stop (some t) => decide (c ≤ t)
  | .stop none => true

/-- All event timestamps are non-decreasing starting from clock `c`. -/
def tsOkB : ℚ → List WEvent → Bool
  | _, [] => true
  | c, e :: es => evTimeOk c e && tsOkB (evClock c e) es

/-- The segment-ordering session invariant for C8. -/
def SegInv (clock : ℚ) (s : WState) (segs : List Segment) : Prop :=
  List.Pairwise segOrdered segs ∧
  (∀ a ∈ segs, a.startMs < a.endMs) ∧
  (∀ a ∈ segs, a.endMs ≤ clock) ∧
  (s.currentSpeakerId ≠ none → ∀ a ∈ segs, a.endMs ≤ s.currentSegmentStartMs) ∧
  s.lastSpeechTimestamp ≤ clock ∧
  0 ≤ clock

lemma endW_SegInv (clock ts newClock : ℚ) (s : WState) (segs : List Segment)
    (inv : SegInv clock s segs) (h1 : clock ≤ newClock) (h2 : ts ≤ newClock) :
    SegInv newClock (endCurrentSegmentW ts s).1
      (segs ++ emittedSegments (endCurrentSegmentW ts s).2) := by
  obtain ⟨i1, i2, i3, i4, i5, i6⟩ := inv
  cases hc : s.currentSpeakerId with
  | none =>
    simp only [endCurrentSegmentW, hc, emittedSegments, List.flatMap_nil,
      List.append_nil]
    exact ⟨i1, i2, fun a ha => (i3 a ha).trans h1, fun hne => absurd hc hne,
      i5.trans h1, i6.trans h1⟩
  | some sid =>
    by_cases hgt : (if s.lastSpeechTimestamp > 0 then s.lastSpeechTimestamp
        else ts) > s.currentSegmentStartMs
    · have hendT : (if s.lastSpeechTimestamp > 0 then s.lastSpeechTimestamp
          else ts) ≤ newClock := by
        split_ifs with hl
        · exact i5.trans h1
        · exact h2
      simp only [endCurrentSegmentW, hc, if_pos hgt, emittedSegments,
        List.flatMap_cons, List.flatMap_nil, List.append_nil]
      refine ⟨?_, ?_, ?_, ?_, ?_, ?_⟩
      · rw [List.pairwise_append]
        refine ⟨i1, List.pairwise_singleton _ _, ?_⟩
        intro a ha b hb
        rw [List.mem_singleton] at hb
        subst hb
        have hae := i4 (by rw [hc]; exact Option.some_ne_none sid) a ha
        exact ⟨hae, lt_of_lt_of_le (i2 a ha) hae⟩
      · intro a ha
        rcases List.mem_append.mp ha with ha | ha
        · exact i2 a ha
        · rw [List.mem_singleton] at ha
          subst ha
          exact hgt
      · intro a ha
        rcases List.mem_append.mp ha with ha | ha
        · exact (i3 a ha).trans h1
        · rw [List.mem_singleton] at ha
          subst ha
          exact hendT
      · intro hne
        exact absurd rfl hne
      · exact i6.trans h1
      · exact i6.trans h1
    · simp only [endCurrentSegmentW, hc, if_neg hgt, emittedSegments,
        List.flatMap_nil, List.append_nil]
      exact ⟨i1, i2, fun a ha => (i3 a ha).trans h1, fun hne => absurd rfl hne,
        i6.trans h1, i6.trans h1⟩

lemma processFeatures_SegInv (expected : Int) (rms : ℚ) (mfcc : List ℚ)
    (t0 clock : ℚ) (s : WState) (segs : List Segment)
    (inv : SegInv clock s segs) (ht : clock ≤ t0) :
    SegInv t0 (processFeatures expected rms mfcc t0 s).1
      (segs ++ emittedSegments (processFeatures expected rms mfcc t0 s).2) := by
  obtain ⟨i1, i2, i3, i4, i5, i6⟩ := inv
  by_cases hv : rms < vadThr s rms
  · rw [processFeatures_silence expected rms mfcc t0 s hv]
    by_cases hsil : s.silenceFrames + 1 > SILENCE_THRESHOLD_FRAMES
    · rw [if_pos hsil]
      exact endW_SegInv clock t0 t0 _ segs ⟨i1, i2, i3, i4, i5, i6⟩ ht le_rfl
    · rw [if_neg hsil]
      simp only [emittedSegments, List.flatMap_nil, List.append_nil]
      exact ⟨i1, i2, fun a ha => (i3 a ha).trans ht, i4, i5.trans ht, i6.trans ht⟩
  · simp only [processFeatures, if_neg hv]
    by_cases hm : mfcc = []
    · rw [if_pos hm]
      simp only [emittedSegments, List.flatMap_nil, List.append_nil]
      exact ⟨i1, i2, fun a ha => (i3 a ha).trans ht, i4, le_rfl, i6.trans ht⟩
    · rw [if_neg hm]
      by_cases hfb : (bufferPush s.featureBuffer mfcc).length
          < MAX_FEATURE_BUFFER_LENGTH / 2
      · rw [if_pos hfb]
        simp only [emittedSegments, List.flatMap_nil, List.append_nil]
        exact ⟨i1, i2, fun a ha => (i3 a ha).trans ht, i4, le_rfl, i6.trans ht⟩
      · rw [if_neg hfb]
        by_cases hsame : s.currentSpeakerId
            = some (clusterStep expected
                (windowMean (bufferPush s.featureBuffer mfcc)) s.centroids).1
        · rw [if_pos hsame]
          simp only [emittedSegments, List.flatMap_nil, List.append_nil]
          exact ⟨i1, i2, fun a ha => (i3 a ha).trans ht, i4, le_rfl, i6.trans ht⟩
        · rw [if_neg hsame]
          have hendInv := endW_SegInv t0 t0 t0
            { s with noiseFloor := noiseFloorNext s rms, silenceFrames := 0,
                     lastSpeechTimestamp := t0,
                     featureBuffer := bufferPush s.featureBuffer mfcc,
                     centroids := (clusterStep expected
                       (windowMean (bufferPush s.featureBuffer mfcc)) s.centroids).2 }
            segs
            ⟨i1, i2, fun a ha => (i3 a ha).trans ht, i4, le_rfl, i6.trans ht⟩
            le_rfl le_rfl
          obtain ⟨j1, j2, j3, j4, j5, j6⟩ := hendInv
          rw [emittedSegments_append]
          have hact : emittedSegments [WMsg.activeSpeaker (clusterStep expected
              (windowMean (bufferPush s.featureBuffer mfcc)) s.centroids).1] = [] := by
            simp [emittedSegments]
          rw [hact, List.append_nil]
          exact ⟨j1, j2, j3, fun _ a ha => j3 a ha, j5, j6⟩

lemma stopHandler_SegInv (t0 : Option ℚ) (clock : ℚ) (s : WState)
    (segs : List Segment) (inv : SegInv clock s segs)
    (ht : ∀ t, t0 = some t → clock ≤ t) :
    SegInv (evClock clock (WEvent.stop t0)) (stopHandler t0 s).1
      (segs ++ emittedSegments (stopHandler t0 s).2) := by
  cases t0 with
  | none =>
    obtain ⟨i1, i2, i3, i4, i5, i6⟩ := inv
    have hend := endW_SegInv clock s.lastSpeechTimestamp clock s segs
      ⟨i1, i2, i3, i4, i5, i6⟩ le_rfl i5
    obtain ⟨j1, j2, j3, j4, j5, j6⟩ := hend
    exact ⟨j1, j2, j3, fun hne => absurd rfl hne, j6, j6⟩
  | some t =>
    have hend := endW_SegInv clock t t s segs inv (ht t rfl) le_rfl
    obtain ⟨j1, j2, j3, j4, j5, j6⟩ := hend
    exact ⟨j1, j2, j3, fun hne => absurd rfl hne, j6, j6⟩

lemma stepW_SegInv (expected : Int) (clock : ℚ) (s : WState)
    (segs : List Segment) (e : WEvent) (inv : SegInv clock s segs)
    (h : evTimeOk clock e = true) :
    SegInv (evClock clock e) (stepW expected s e).1
      (segs ++ emittedSegments (stepW expected s e).2) := by
  cases e with
  | audio rms mfcc t0 =>
    have ht : clock ≤ t0 := by
      simpa [evTimeOk] using h
    exact processFeatures_SegInv expected rms mfcc t0 clock s segs inv ht
  | stop t0 =>
    refine stopHandler_SegInv t0 clock s segs inv ?_
    intro t hts
    subst hts
    simpa [evTimeOk] using h

lemma runW_SegInv (expected : Int) :
    ∀ (evs : List WEvent) (clock : ℚ) (s : WState) (segs : List Segment),
      SegInv clock s segs → tsOkB clock evs = true →
      ∃ c', SegInv c' (runW expected s evs).1
        (segs ++ emittedSegments (runW expected s evs).2) := by
  intro evs
  induction evs with
  | nil =>
    intro clock s segs inv _
    exact ⟨clock, by simpa [runW, emittedSegments] using inv⟩
  | cons e es ih =>
    intro clock s segs inv h
    rw [tsOkB, Bool.and_eq_true] at h
    have hstep := stepW_SegInv expected clock s segs e inv h.1
    obtain ⟨c', hc'⟩ := ih (evClock clock e) (stepW expected s e).1
      (segs ++ emittedSegments (stepW expected s e).2) hstep h.2
    refine ⟨c', ?_⟩
    have hout : emittedSegments (runW expected s (e :: es)).2
        = emittedSegments (stepW expected s e).2
          ++ emittedSegments (runW expected (stepW expected s e).1 es).2 := by
      simp only [runW, emittedSegments_append]
    have hst : (runW expected s (e :: es)).1
        = (runW expected (stepW expected s e).1 es).1 := by
      simp only [runW]
    rw [hout, hst, ← List.append_assoc]
    exact hc'

/-- C8: for every session whose events arrive with non-decreasing
timestamps (millisecond offsets, hence starting from 0), the finalized
segments are emitted sorted strictly ascending by `startMs` and
pairwise non-overlapping as half-open intervals: every emitted
segment's `endMs` is at most every later segment's `startMs`. -/
theorem c8_segments_sorted :
    ∀ (expected : Int) (evs : List WEvent), tsOkB 0 evs = true →
      List.Pairwise segOrdered
        (emittedSegments (runW expected initWState evs).2) := by
  intro expected evs h
  have hinit : SegInv 0 initWState [] := by
    refine ⟨List.Pairwise.nil, by simp, by simp, ?_, le_rfl, le_rfl⟩
    intro hne
    exact absurd rfl hne
  obtain ⟨c', hc'⟩ := runW_SegInv expected evs 0 initWState [] hinit h
  simpa using hc'.1

/-- C8 witness: the ordering property instantiated on a concrete
timestamp-ordered session. -/
theorem c8_segments_sorted_witness :
    List.Pairwise segOrdered
      (emittedSegments
        (runW 2 initWState [WEvent.audio 1 [1] 0, WEvent.stop (some 1)]).2) :=
  c8_segments_sorted 2 [WEvent.audio 1 [1] 0, WEvent.stop (some 1)]
    (by norm_num [tsOkB, evTimeOk, evClock])
